import Mathlib

/-!
Verification development for the ONNX conversion/optimization pipeline of
`modules/onnx.py` (class `OnnxRawPipeline` and the manifest loader
`load_init_dict`).

The embedding models the observable behaviour of the staged pipeline:

* the filesystem is a set of existing directory paths (`St.dirs`); only
  directory existence is consulted by the code's cache checks, so file
  contents are not modelled except for the persisted manifest, which is
  recorded in the event trace;
* every externally produced effect (engine runs, file copies, directory
  creation, manifest writes, error logs) is recorded in an append-only
  event trace (`St.events`);
* external collaborators (the olive `run` engine, footprint files, model
  loading, the transient pipeline's serialized manifest) are oracles
  supplied through an `Env` record, so theorems quantify over every
  possible behaviour of the collaborators;
* Python exceptions are modelled with an error monad threading the
  filesystem state (an exception does not undo mutations already made).

`os.path.join` is modelled for the relative, slash-free component names the
code builds paths from; `str(int)` formatting is modelled by `natDec`.
-/

namespace Onnx

/-- A manifest (`model_index.json`) entry value: either a non-list literal
configuration value (opaque payload) or a Python list of `library`/`class`
reference members, each possibly `None`. -/
inductive Value where
  | lit : String → Value
  | ref : List (Option String) → Value
deriving DecidableEq

/-- One record of the engine-produced footprint file: the producing pass
name (`from_pass`) and the produced model path
(`ONNXModel(**footprint["model_config"]["config"]).model_path`). -/
structure Footprint where
  fromPass : String
  modelPath : String
deriving DecidableEq

/-- Python exceptions distinguished by the embedding. -/
inductive Err where
  | indexError
  | assertionError : String → Err
  | fileNotFound : String → Err
  | fileExists : String → Err
  | external : String → Err
deriving DecidableEq

deriving instance DecidableEq for Except

/-- `str(e)` for a modelled exception, as logged by `log.error(e)`. -/
def errText : Err → String
  | .indexError => "list index out of range"
  | .assertionError m => m
  | .fileNotFound p => "No such file or directory: " ++ p
  | .fileExists p => "File exists: " ++ p
  | .external m => m

/-- Observable effects, in program order. -/
inductive Event where
  | engineRun : String → Event
  | copyTree : String → String → Event
  | mkdir : String → Event
  | copyFile : String → String → Event
  | writeManifest : String → List (String × Value) → Event
  | logError : String → Event
  | logWarn : String → Event
deriving DecidableEq

/-- Program state: the set of directories that exist, and the trace of
observable events so far. -/
structure St where
  dirs : List String
  events : List Event
deriving DecidableEq

/-- The state/error monad: Python exception propagation over a mutable
filesystem.  Mutations made before an exception persist. -/
def M (α : Type) : Type := St → Except Err α × St

def M.pure' (a : α) : M α := fun st => (.ok a, st)

def M.bind' (m : M α) (f : α → M β) : M β := fun st =>
  match m st with
  | (.ok a, st') => f a st'
  | (.error e, st') => (.error e, st')

instance : Monad M where
  pure := M.pure'
  bind := M.bind'

def M.throw (e : Err) : M α := fun st => (.error e, st)

/-- `p` lies in the directory tree rooted at `root` (checked structurally
on the character lists). -/
def inTree (root p : String) : Bool :=
  decide (p = root) || List.isPrefixOf (root ++ "/").data p.data

/-- Effect of `shutil.rmtree(root)` on the set of existing directories. -/
def removeTree (root : String) (ds : List String) : List String :=
  ds.filter (fun p => ¬ inTree root p)

/-- Pure state update for `shutil.rmtree(root, ignore_errors=True)`. -/
def removeTreeSt (root : String) (st : St) : St :=
  { st with dirs := removeTree root st.dirs }

/-- Append one event to the trace. -/
def pushE (e : Event) (st : St) : St := { st with events := st.events ++ [e] }

/-- `shutil.rmtree(d, ignore_errors=True)`. -/
def rmtreeIg (d : String) : M Unit := fun st => (.ok (), removeTreeSt d st)

/-- `shutil.rmtree(d)` without `ignore_errors`: raises if `d` is absent. -/
def rmtreeStrict (d : String) : M Unit := fun st =>
  if d ∈ st.dirs then (.ok (), removeTreeSt d st) else (.error (.fileNotFound d), st)

/-- `os.path.join` for the relative path components used by the code. -/
def pjoin (a b : String) : String := if a = "" then b else a ++ "/" ++ b

/-- `os.mkdir(pjoin parent child)`: requires the parent directory. -/
def mkdirM (parent child : String) : M Unit := fun st =>
  if parent ∈ st.dirs then
    if pjoin parent child ∈ st.dirs then (.error (.fileExists (pjoin parent child)), st)
    else (.ok (), pushE (.mkdir (pjoin parent child)) { st with dirs := st.dirs ++ [pjoin parent child] })
  else (.error (.fileNotFound parent), st)

/-- `shutil.copytree(src, dst, ignore=...)`: requires `src`, fails if `dst`
exists, creates `dst`.  The copied (non-binary) inner entries are not
modelled; no cache check in the code inspects them. -/
def copyTreeM (src dst : String) : M Unit := fun st =>
  if src ∈ st.dirs then
    if dst ∈ st.dirs then (.error (.fileExists dst), st)
    else (.ok (), pushE (.copyTree src dst) { st with dirs := st.dirs ++ [dst] })
  else (.error (.fileNotFound src), st)

/-- `with open(pjoin dir file, "w"): json.dump(content)`: requires the
directory to exist, records the persisted manifest. -/
def writeManifestM (dir : String) (content : List (String × Value)) : M Unit := fun st =>
  if dir ∈ st.dirs then (.ok (), pushE (.writeManifest dir content) st)
  else (.error (.fileNotFound dir), st)

/-! ### Python dict model (insertion-ordered association lists) -/

/-- First-match lookup, the observable behaviour of `dict.__getitem__`. -/
def dlookup : List (String × Value) → String → Option Value
  | [], _ => none
  | (k', v) :: rest, k => if k' = k then some v else dlookup rest k

/-- `k in d`. -/
def dcontains (m : List (String × Value)) (k : String) : Bool :=
  (dlookup m k).isSome

/-- `d[k] = v`: replace in place if present, else append. -/
def dinsert (m : List (String × Value)) (k : String) (v : Value) : List (String × Value) :=
  if dcontains m k then m.map (fun p => if p.1 = k then (k, v) else p)
  else m ++ [(k, v)]

/-- `del d[k]`. -/
def derase (m : List (String × Value)) (k : String) : List (String × Value) :=
  m.filter (fun p => ¬ p.1 = k)

/-- `onto.update(d)`. -/
def dictUpdate (onto d : List (String × Value)) : List (String × Value) :=
  d.foldl (fun acc kv => dinsert acc kv.1 kv.2) onto

/-! ### Decimal rendering (`str(int)` inside the f-strings) -/

/-- Digit character for `d < 10`. -/
def decDigit (d : Nat) : Char := Char.ofNat (48 + d)

/-- Least-significant-first decimal digits, with enough fuel (structural
recursion so that concrete cache keys compute inside the kernel). -/
def natDecFuel : Nat → Nat → List Char
  | 0, _ => []
  | fuel + 1, n => if n = 0 then [] else decDigit (n % 10) :: natDecFuel fuel (n / 10)

/-- Least-significant-first decimal digits of a number (`n` is always
enough fuel, since the digit count of `n` never exceeds `n`). -/
def natDecAux (n : Nat) : List Char := natDecFuel n n

/-- Decimal rendering of a natural number, as Python's `str`. -/
def natDec (n : Nat) : String :=
  if n = 0 then "0" else ⟨(natDecAux n).reverse⟩

/-! ### The pipeline, its options and the external-collaborator oracle -/

/-- The `shared.opts` fields read by the core. -/
structure Opts where
  /-- `shared.opts.onnx_cached_models_path` -/
  cachedModelsPath : String
  /-- `shared.opts.onnx_temp_dir` -/
  tempDir : String
  /-- `shared.opts.onnx_cache_converted` -/
  cacheConverted : Bool
  /-- `shared.opts.onnx_cache_optimized` -/
  cacheOptimized : Bool
  /-- `shared.opts.onnx_enable_olive` -/
  enableOlive : Bool
deriving DecidableEq

/-- The fields of `OnnxRawPipeline` the staged conversion reads.
`originalFilename` is `os.path.basename(path)` in `__init__`;
`submodels` is `submodels_sdxl` or `submodels_sd` by `_is_sdxl`. -/
structure RawPipeline where
  isSdxl : Bool
  path : String
  originalFilename : String
  submodels : List String
  initDict : List (String × Value)

/-- `modules.olive.config` fields written by `preprocess` (S0) and read by
`optimize`. -/
structure RunConfig where
  width : Nat
  height : Nat
  batchSize : Nat
  isSdxl : Bool
  crossAttentionDim : Nat
  timeIdsSize : Nat
deriving DecidableEq

/-- Behaviour oracle for one stage's external collaborators.  A theorem
quantifying over `Env` holds for every behaviour of the collaborators. -/
structure Env where
  /-- exception, if any, while reading/parsing the stage's per-submodel
  JSON template (the `open`/`json.load` before the engine call) -/
  cfgErr : String → Option Err
  /-- exception, if any, raised by the engine call `run(config)` for a
  given submodel -/
  runErr : String → Option Err
  /-- parsed contents of the submodel's footprint file after a successful
  `run` -/
  footprints : String → List Footprint
  /-- `os.path.isfile` for paths outside the modelled directory set
  (engine scratch outputs and sidecars) -/
  isFile : String → Bool
  /-- exception, if any, while reloading a converted/optimized submodel as
  `OnnxRuntimeModel` -/
  loadModelErr : String → Option Err
  /-- exception, if any, raised by the transient pipeline constructor -/
  ctorErr : Option Err
  /-- the transient pipeline's serialized manifest,
  `json.loads(pipeline.to_json_string())` -/
  serialized : List (String × Value)

/-- `submodels_sd`. -/
def submodels_sd : List String := ["text_encoder", "unet", "vae_encoder", "vae_decoder"]

/-- `submodels_sdxl`. -/
def submodels_sdxl : List String :=
  ["text_encoder", "text_encoder_2", "unet", "vae_encoder", "vae_decoder"]

/-! ### The shared stage body (`convert` / `optimize` try-blocks) -/

/-- The Python loop keeping the last footprint whose `from_pass` equals the
wanted pass name (`for _, footprint in footprints.items(): if ...`). -/
def findFootprint (passName : String) (fps : List Footprint) : Option Footprint :=
  fps.foldl (fun acc fp => if fp.fromPass = passName then some fp else acc) none

/-- One iteration of the engine loop: read the stage template (external),
invoke `run`, read the footprint file, `assert` the wanted pass's record
and extract its produced model path. -/
def runSubmodel (env : Env) (passName assertMsg sub : String) : M String := do
  match env.cfgErr sub with
  | some e => M.throw e
  | none =>
  fun st => ((.ok () : Except Err Unit), pushE (.engineRun sub) st)
  match env.runErr sub with
  | some e => M.throw e
  | none =>
  match findFootprint passName (env.footprints sub) with
  | none => M.throw (.assertionError assertMsg)
  | some fp => pure fp.modelPath

/-- The engine loop over `self.submodels`, accumulating
`converted_model_paths` / `optimized_model_paths`. -/
def runSubmodels (env : Env) (passName assertMsg : String) :
    List String → M (List (String × String))
  | [] => pure []
  | s :: rest => do
    let p ← runSubmodel env passName assertMsg s
    let ps ← runSubmodels env passName assertMsg rest
    pure ((s, p) :: ps)

/-- `shutil.copyfile(src, dst)` for a destination inside `dstParent`:
requires the source file and the destination directory. -/
def copyFileM (env : Env) (src dst dstParent : String) : M Unit := fun st =>
  if env.isFile src then
    if dstParent ∈ st.dirs then (.ok (), pushE (.copyFile src dst) st)
    else (.error (.fileNotFound dstParent), st)
  else (.error (.fileNotFound src), st)

/-- `os.path.dirname`. -/
def pdirname (p : String) : String :=
  ⟨(((p.data.reverse).dropWhile (fun c => c ≠ '/')).drop 1).reverse⟩

/-- `os.path.basename` (for file paths). -/
def pbasename (p : String) : String :=
  ⟨((p.data.reverse).takeWhile (fun c => c ≠ '/')).reverse⟩

/-- The copytree pre-seed, performed only when the stage's cache-retention
option is enabled:
`shutil.copytree(in_dir, out_dir, ignore=shutil.ignore_patterns("weights.pb", "*.onnx", "*.safetensors", "*.ckpt"))`. -/
def copyTreeIf (doCopyTree : Bool) (src dst : String) : M Unit := fun st =>
  if doCopyTree then copyTreeM src dst st else (.ok (), st)

/-- `if not os.path.isdir(dst_parent): os.mkdir(dst_parent)`. -/
def mkdirIfNeeded (parent child : String) : M Unit := fun st =>
  if pjoin parent child ∈ st.dirs then (.ok (), st) else mkdirM parent child st

/-- `if os.path.isfile(src): shutil.copyfile(src, dst)`. -/
def copyIfFile (env : Env) (src dst dstParent : String) : M Unit := fun st =>
  if env.isFile src then copyFileM env src dst dstParent st else (.ok (), st)

/-- One iteration of the artifact copy loop: create the submodel
subdirectory if needed, copy the produced graph file to `model.onnx`, then
the optional `.data` and `weights.pb` sidecars. -/
def copySubmodel (env : Env) (outDir sub srcPath : String) : M Unit := do
  mkdirIfNeeded outDir sub
  copyFileM env srcPath (pjoin (pjoin outDir sub) "model.onnx") (pjoin outDir sub)
  copyIfFile env (pjoin (pdirname srcPath) (pbasename srcPath ++ ".data"))
    (pjoin (pjoin outDir sub) ("model.onnx" ++ ".data")) (pjoin outDir sub)
  copyIfFile env (pjoin (pdirname srcPath) "weights.pb")
    (pjoin (pjoin outDir sub) "weights.pb") (pjoin outDir sub)

/-- The artifact copy loop over `self.submodels`. -/
def copyAll (env : Env) (outDir : String) : List (String × String) → M Unit
  | [] => pure ()
  | (s, p) :: rest => do
    copySubmodel env outDir s p
    copyAll env outDir rest

/-- The reload loop: reload each converted submodel as an
`OnnxRuntimeModel` (`load_model` / `from_pretrained`; only the possible
exception is observable) and delete it from the working copy of
`init_dict`.  Returns the pruned `init_dict`. -/
def loadConverted (env : Env) :
    List String → List (String × Value) → M (List (String × Value))
  | [], ini => pure ini
  | s :: rest, ini =>
    match env.loadModelErr s with
    | some e => M.throw e
    | none => loadConverted env rest (if dcontains ini s then derase ini s else ini)

/-- `pipeline = self.constructor(**kwargs)`: only the possible exception is
observable (the serialized manifest is the oracle `env.serialized`).
`load_submodels` for the remaining entries swallows every exception and is
otherwise unobservable here. -/
def ctorStep (env : Env) : M Unit :=
  match env.ctorErr with
  | some e => M.throw e
  | none => pure ()

/-- The merge-back loop:
`for k, v in init_dict.items(): if k not in model_index: model_index[k] = v`
applied to the serialized manifest. -/
def mergeModelIndex (serialized pruned : List (String × Value)) : List (String × Value) :=
  pruned.foldl (fun m kv => if dcontains m kv.1 then m else m ++ [(kv.1, kv.2)]) serialized

/-- `if submodel in init_dict: del init_dict[submodel]` folded over the
submodel list: the value of the working `init_dict` after a successful
reload loop. -/
def pruneInit (ini : List (String × Value)) (subs : List String) : List (String × Value) :=
  subs.foldl (fun d s => if dcontains d s then derase d s else d) ini

/-- The common try-block body of `convert` and `optimize` (steps 2–4 of
the stage contract), parameterized by the copytree gate and the wanted
footprint pass.  Returns the output directory. -/
def stageBody (env : Env) (P : RawPipeline) (doCopyTree : Bool)
    (passName assertMsg : String) (inDir outDir : String) : M String := do
  rmtreeIg "cache"
  rmtreeIg "footprints"
  copyTreeIf doCopyTree inDir outDir
  let paths ← runSubmodels env passName assertMsg P.submodels
  copyAll env outDir paths
  let ini ← loadConverted env P.submodels P.initDict
  ctorStep env
  writeManifestM outDir (mergeModelIndex env.serialized ini)
  pure outDir

/-- The except-block shared by both stages: log the failure with the
original error text, delete the scratch directory and the (partial) output
directory. -/
def failCleanup (opts : Opts) (P : RawPipeline) (stageMsg : String) (e : Err)
    (outDir : String) (st : St) : St :=
  removeTreeSt outDir (removeTreeSt opts.tempDir
    (pushE (.logError (errText e))
      (pushE (.logError (stageMsg ++ " model '" ++ P.originalFilename ++ "'.")) st)))

/-- Conversion cache directory: `<cache_root>/<source_filename>`. -/
def convOutDir (opts : Opts) (P : RawPipeline) : String :=
  pjoin opts.cachedModelsPath P.originalFilename

/-- `OnnxRawPipeline.convert`. -/
def convert (env : Env) (opts : Opts) (P : RawPipeline) (inDir : String)
    (st : St) : St × Option String :=
  let outDir := convOutDir opts P
  if outDir ∈ st.dirs then (st, some outDir) -- already converted (cached)
  else
    match stageBody env P opts.cacheConverted "OnnxConversion" "Failed to convert model"
        inDir outDir st with
    | (.ok d, st') => (st', some d)
    | (.error e, st') => (failCleanup opts P "Failed to convert" e outDir st', none)

/-- Optimization cache directory:
`<cache_root>/<source_filename>-<width>w-<height>h`. -/
def optOutDir (cacheRoot fname : String) (w h : Nat) : String :=
  pjoin cacheRoot (fname ++ "-" ++ natDec w ++ "w-" ++ natDec h ++ "h")

/-- `OnnxRawPipeline.optimize`.  Unlike `convert`, when the optimized cache
is not retained the output directory is redirected to the shared scratch
directory. -/
def optimize (env : Env) (opts : Opts) (P : RawPipeline) (cfg : RunConfig)
    (inDir : String) (st : St) : St × Option String :=
  let cacheOut := optOutDir opts.cachedModelsPath P.originalFilename cfg.width cfg.height
  if cacheOut ∈ st.dirs then (st, some cacheOut) -- already optimized (cached)
  else
    let outDir := if opts.cacheOptimized then cacheOut else opts.tempDir
    match stageBody env P opts.cacheOptimized "OrtTransformersOptimization"
        "Failed to optimize model" inDir outDir st with
    | (.ok d, st') => (st', some d)
    | (.error e, st') => (failCleanup opts P "Failed to optimize" e outDir st', none)

/-! ### The orchestrator (`preprocess`) -/

/-- Constructors a pipeline can be assembled with. -/
inductive Ctor where
  | sd      -- diffusers.StableDiffusionPipeline
  | sdxl    -- diffusers.StableDiffusionXLPipeline
  | onnxSd  -- diffusers.OnnxStableDiffusionPipeline
  | onnxSdxl -- diffusers.OnnxStableDiffusionXLPipeline
deriving DecidableEq

/-- The original generic (non-graph-backed) constructor. -/
def origCtor (isSdxl : Bool) : Ctor := if isSdxl then .sdxl else .sd

/-- The graph-backed constructor. -/
def onnxCtor (isSdxl : Bool) : Ctor := if isSdxl then .onnxSdxl else .onnxSd

/-- The observable identity of an assembled pipeline: which constructor and
which source directory `load_pipeline(cls, path)` was invoked with
(`derive_properties` only copies carried metadata onto it). -/
structure Pipe where
  ctor : Ctor
  path : String
deriving DecidableEq

/-- Final assembly on the orchestrator's success path (S3): build the
pipeline from `out_dir`, delete the converted directory unless the
converted cache is retained (`shutil.rmtree` without `ignore_errors`),
always delete the shared scratch directory (`ignore_errors=True`). -/
def finishPre (opts : Opts) (P : RawPipeline) (convertedDir outDir : String)
    (st : St) : St × Except Err Pipe :=
  if opts.cacheConverted then
    (removeTreeSt opts.tempDir st, .ok ⟨onnxCtor P.isSdxl, outDir⟩)
  else if convertedDir ∈ st.dirs then
    (removeTreeSt opts.tempDir (removeTreeSt convertedDir st), .ok ⟨onnxCtor P.isSdxl, outDir⟩)
  else (st, .error (.fileNotFound convertedDir))

/-- S0 — Configure: the `modules.olive.config` fields `preprocess` writes
before calling any stage (width, height, batch size, architecture flag,
`cross_attention_dim`, `time_ids_size`). -/
def preprocessConfig (P : RawPipeline) (batchSize height width : Nat) : RunConfig :=
  ⟨width, height, batchSize, P.isSdxl,
    if P.isSdxl then 2048 else height + 256,
    if P.isSdxl then 6 else 5⟩

/-- The directory `preprocess` hands to `convert`:
`self.path if os.path.isdir(self.path) else shared.opts.onnx_temp_dir`. -/
def preprocessInDir (opts : Opts) (P : RawPipeline) (st : St) : String :=
  if P.path ∈ st.dirs then P.path else opts.tempDir

/-- S2's advisory logs: the experimental-olive warning, plus the
precision-risk warning when width and height differ. -/
def oliveAdvisories (width height : Nat) (st : St) : St :=
  let st₂ := pushE (.logWarn "Olive implementation is experimental. It contains potentially an issue and is subject to change at any time.") st
  if width ≠ height then
    pushE (.logWarn "Olive detected different width and height. The quality of the result is not guaranteed.") st₂
  else st₂

/-- `OnnxRawPipeline.preprocess`: populate the run configuration, convert
(fallback A on failure), optionally optimize (fallback B on failure),
assemble and clean up.  `envC`/`envO` are the conversion- and
optimization-stage collaborator oracles. -/
def preprocess (envC envO : Env) (opts : Opts) (P : RawPipeline)
    (batchSize height width : Nat) (st : St) : St × Except Err Pipe :=
  let cfg : RunConfig := preprocessConfig P batchSize height width
  let inDir := preprocessInDir opts P st
  match convert envC opts P inDir st with
  | (st₁, none) =>
    (pushE (.logError "Failed to convert model. The generation will fall back to unconverted one.") st₁,
      .ok ⟨origCtor P.isSdxl, P.path⟩)
  | (st₁, some convertedDir) =>
    if opts.enableOlive then
      match optimize envO opts P cfg convertedDir (oliveAdvisories width height st₁) with
      | (st₄, none) =>
        (pushE (.logError "Failed to optimize pipeline. The generation will fall back to unoptimized one.") st₄,
          .ok ⟨onnxCtor P.isSdxl, convertedDir⟩)
      | (st₄, some optimizedDir) => finishPre opts P convertedDir optimizedDir st₄
    else finishPre opts P convertedDir convertedDir st₁

/-! ### The manifest loader (`load_init_dict`) -/

/-- `list.__getitem__`: raises `IndexError` when out of range. -/
def pyGet (l : List (Option String)) (i : Nat) : Except Err (Option String) :=
  match l[i]? with
  | some x => .ok x
  | none => .error .indexError

/-- The filtering loop of `load_init_dict`: non-list values are dropped, a
list value has its first two members inspected (with Python's
short-circuiting `or`), entries with a `None` member are logged (the
skipped keys are returned) and skipped. -/
def buildInitDict : List (String × Value) → List (String × Value) → List String →
    Except Err (List (String × Value) × List String)
  | [], R, logs => .ok (R, logs)
  | (k, v) :: rest, R, logs =>
    match v with
    | .lit _ => buildInitDict rest R logs
    | .ref l => do
      let x0 ← pyGet l 0
      if x0 = none then buildInitDict rest R (logs ++ [k])
      else do
        let x1 ← pyGet l 1
        if x1 = none then buildInitDict rest R (logs ++ [k])
        else buildInitDict rest (dinsert R k (.ref l)) logs

/-- `load_init_dict`: merge the extracted partial mappings (later
overwrites earlier), then keep only complete reference pairs.  Returns the
kept mapping together with the keys whose skipping was logged. -/
def load_init_dict (extracted : List (List (String × Value))) :
    Except Err (List (String × Value) × List String) :=
  buildInitDict (extracted.foldl dictUpdate []) [] []

/-- `self.init_dict` after `__init__`: the loaded mapping with a declared
`vae` entry dropped. -/
def initDictOfLoaded (r : List (String × Value)) : List (String × Value) :=
  if dcontains r "vae" then derase r "vae" else r

/-- Is this event an engine invocation? -/
def isEngineEv (e : Event) : Bool :=
  match e with | .engineRun _ => true | _ => false

/-- Number of engine invocations recorded in a trace. -/
def engineCount (es : List Event) : Nat := es.countP isEngineEv

/-! ## Basic lemmas: monad, filesystem, dictionaries -/

theorem bind_ok_iff {α β : Type} {m : M α} {f : α → M β} {st st₂ : St} {b : β} :
    (m >>= f) st = (.ok b, st₂) ↔
      ∃ a st₁, m st = (.ok a, st₁) ∧ f a st₁ = (.ok b, st₂) := by
  show M.bind' m f st = _ ↔ _
  unfold M.bind'
  rcases h : m st with ⟨r, st₁⟩
  cases r with
  | ok a =>
    constructor
    · intro hf
      exact ⟨a, st₁, rfl, hf⟩
    · rintro ⟨a', st₁', hm, hf⟩
      cases hm
      exact hf
  | error e =>
    constructor
    · intro hf
      simp at hf
    · rintro ⟨a', st₁', hm, hf⟩
      simp at hm

theorem pure_apply {α : Type} (a : α) (st : St) : (pure a : M α) st = (.ok a, st) := rfl

theorem mem_removeTree_iff {r p : String} {l : List String} :
    p ∈ removeTree r l ↔ p ∈ l ∧ inTree r p = false := by
  simp [removeTree, List.mem_filter]

theorem not_mem_removeTree_self (r : String) (l : List String) : r ∉ removeTree r l := by
  intro h
  rcases mem_removeTree_iff.1 h with ⟨-, h2⟩
  simp [inTree] at h2

theorem mem_of_mem_removeTree {r p : String} {l : List String}
    (h : p ∈ removeTree r l) : p ∈ l := (mem_removeTree_iff.1 h).1

theorem not_mem_removeTree {r p : String} {l : List String}
    (h : p ∉ l) : p ∉ removeTree r l := fun hm => h (mem_of_mem_removeTree hm)

theorem removeTreeSt_events (r : String) (st : St) : (removeTreeSt r st).events = st.events := rfl

theorem pushE_dirs (e : Event) (st : St) : (pushE e st).dirs = st.dirs := rfl

theorem mem_removeTree_of_not_inTree {r p : String} {l : List String}
    (h : p ∈ l) (hn : inTree r p = false) : p ∈ removeTree r l :=
  mem_removeTree_iff.2 ⟨h, hn⟩

theorem dlookup_append (m m' : List (String × Value)) (k : String) :
    dlookup (m ++ m') k =
      match dlookup m k with
      | some v => some v
      | none => dlookup m' k := by
  induction m with
  | nil => rfl
  | cons kv rest ih =>
    rcases kv with ⟨k', v⟩
    by_cases h : k' = k <;> simp [dlookup, h, ih]

theorem dlookup_mapReplace_ne {k' k : String} {v : Value} (h : ¬ k' = k) :
    ∀ m : List (String × Value),
      dlookup (m.map (fun p => if p.1 = k' then (k', v) else p)) k = dlookup m k := by
  intro m
  induction m with
  | nil => rfl
  | cons kv rest ih =>
    rcases kv with ⟨k₀, v₀⟩
    simp only [List.map_cons]
    by_cases h0 : k₀ = k'
    · subst h0
      rw [if_pos rfl]
      simp only [dlookup]
      rw [if_neg h, if_neg h]
      exact ih
    · rw [if_neg h0]
      simp only [dlookup]
      by_cases h1 : k₀ = k
      · rw [if_pos h1, if_pos h1]
      · rw [if_neg h1, if_neg h1]
        exact ih

theorem dlookup_dinsert_ne {m : List (String × Value)} {k' k : String} {v : Value}
    (h : ¬ k' = k) : dlookup (dinsert m k' v) k = dlookup m k := by
  unfold dinsert
  split
  · exact dlookup_mapReplace_ne h m
  · rw [dlookup_append]
    cases hm : dlookup m k <;> simp [hm, dlookup, h]

theorem dlookup_isSome_iff_contains {m : List (String × Value)} {k : String} :
    dcontains m k = true ↔ (dlookup m k).isSome = true := Iff.rfl

/-- Fold step of `mergeModelIndex` never changes the binding of a key
already bound. -/
theorem dlookup_mergeFold_of_some {k : String} {v : Value} :
    ∀ (pruned : List (String × Value)) (m : List (String × Value)),
      dlookup m k = some v →
      dlookup (pruned.foldl
        (fun m kv => if dcontains m kv.1 then m else m ++ [(kv.1, kv.2)]) m) k = some v := by
  intro pruned
  induction pruned with
  | nil => intro m h; simpa using h
  | cons kv rest ih =>
    intro m h
    simp only [List.foldl_cons]
    apply ih
    split
    · exact h
    · rw [dlookup_append, h]

theorem dlookup_mergeModelIndex_of_mem {k : String} {v : Value} :
    ∀ (pruned serialized : List (String × Value)),
      dlookup serialized k = none → dlookup pruned k = some v →
      dlookup (mergeModelIndex serialized pruned) k = some v := by
  intro pruned
  induction pruned with
  | nil => intro s _ h; exact absurd h (by simp [dlookup])
  | cons kv rest ih =>
    intro s hs hp
    rcases kv with ⟨k', v'⟩
    unfold mergeModelIndex
    rw [List.foldl_cons]
    by_cases hk : k' = k
    · subst hk
      have hp' : v' = v := by simpa [dlookup] using hp
      subst hp'
      have hc : dcontains s k' = false := by
        simp [dcontains, hs]
      rw [hc]
      simp only [Bool.false_eq_true, if_false]
      apply dlookup_mergeFold_of_some
      rw [dlookup_append, hs]
      simp [dlookup]
    · simp only [dlookup, if_neg hk] at hp
      have hnone : dlookup (if dcontains s k' then s else s ++ [(k', v')]) k = none := by
        split
        · exact hs
        · rw [dlookup_append, hs]
          simp [dlookup, hk]
      exact ih (if dcontains s k' then s else s ++ [(k', v')]) hnone hp

theorem dlookup_derase_ne {k' k : String} (h : ¬ k' = k) :
    ∀ m : List (String × Value), dlookup (derase m k') k = dlookup m k := by
  intro m
  induction m with
  | nil => rfl
  | cons kv rest ih =>
    rcases kv with ⟨k₀, v₀⟩
    by_cases h0 : k₀ = k'
    · subst h0
      have hd : derase ((k₀, v₀) :: rest) k₀ = derase rest k₀ := by
        simp [derase, List.filter_cons]
      rw [hd, ih]
      simp only [dlookup]
      rw [if_neg h]
    · have hd : derase ((k₀, v₀) :: rest) k' = (k₀, v₀) :: derase rest k' := by
        simp [derase, List.filter_cons, h0]
      rw [hd]
      simp only [dlookup]
      by_cases h1 : k₀ = k
      · rw [if_pos h1, if_pos h1]
      · rw [if_neg h1, if_neg h1]
        exact ih

theorem dlookup_pruneInit_ne {k : String} :
    ∀ (subs : List String) (ini : List (String × Value)), k ∉ subs →
      dlookup (pruneInit ini subs) k = dlookup ini k := by
  intro subs
  induction subs with
  | nil => intro ini _; rfl
  | cons s rest ih =>
    intro ini hk
    have hs : s ≠ k := fun h => hk (h ▸ List.mem_cons_self s rest)
    have hr : k ∉ rest := fun h => hk (List.mem_cons_of_mem s h)
    unfold pruneInit
    simp only [List.foldl_cons]
    have : dlookup (if dcontains ini s then derase ini s else ini) k = dlookup ini k := by
      split
      · exact dlookup_derase_ne hs ini
      · rfl
    rw [← this]
    exact ih _ hr

/-! ## Inversion lemmas for the atomic operations -/

theorem rmtreeIg_apply (d : String) (st : St) :
    rmtreeIg d st = (.ok (), removeTreeSt d st) := rfl

theorem mkdirM_ok {parent child : String} {st : St} {a : Unit} {st' : St}
    (h : mkdirM parent child st = (.ok a, st')) :
    parent ∈ st.dirs ∧ pjoin parent child ∉ st.dirs ∧
      st' = pushE (.mkdir (pjoin parent child)) { st with dirs := st.dirs ++ [pjoin parent child] } := by
  unfold mkdirM at h
  split at h
  · split at h
    · simp at h
    · cases h
      refine ⟨by assumption, by assumption, rfl⟩
  · simp at h

theorem copyFileM_ok {env : Env} {src dst dp : String} {st : St} {a : Unit} {st' : St}
    (h : copyFileM env src dst dp st = (.ok a, st')) :
    st' = pushE (.copyFile src dst) st := by
  unfold copyFileM at h
  split at h
  · split at h
    · cases h; rfl
    · simp at h
  · simp at h

theorem copyTreeM_ok {src dst : String} {st : St} {a : Unit} {st' : St}
    (h : copyTreeM src dst st = (.ok a, st')) :
    src ∈ st.dirs ∧ dst ∉ st.dirs ∧
      st' = pushE (.copyTree src dst) { st with dirs := st.dirs ++ [dst] } := by
  unfold copyTreeM at h
  split at h
  · split at h
    · simp at h
    · cases h
      refine ⟨by assumption, by assumption, rfl⟩
  · simp at h

theorem writeManifestM_ok {dir : String} {c : List (String × Value)} {st : St}
    {a : Unit} {st' : St} (h : writeManifestM dir c st = (.ok a, st')) :
    dir ∈ st.dirs ∧ st' = pushE (.writeManifest dir c) st := by
  unfold writeManifestM at h
  split at h
  · cases h
    exact ⟨by assumption, rfl⟩
  · simp at h

theorem ctorStep_ok {env : Env} {st : St} {a : Unit} {st' : St}
    (h : ctorStep env st = (.ok a, st')) : st' = st := by
  unfold ctorStep at h
  cases he : env.ctorErr with
  | some e => rw [he] at h; simp [M.throw] at h
  | none => rw [he] at h; cases h; rfl

theorem loadConverted_ok {env : Env} :
    ∀ {subs : List String} {ini : List (String × Value)} {st : St}
      {r : List (String × Value)} {st' : St},
      loadConverted env subs ini st = (.ok r, st') →
      r = pruneInit ini subs ∧ st' = st := by
  intro subs
  induction subs with
  | nil =>
    intro ini st r st' h
    cases h
    exact ⟨rfl, rfl⟩
  | cons s rest ih =>
    intro ini st r st' h
    unfold loadConverted at h
    cases he : env.loadModelErr s with
    | some e => rw [he] at h; simp [M.throw] at h
    | none =>
      rw [he] at h
      rcases ih h with ⟨hr, hst⟩
      exact ⟨hr, hst⟩

theorem runSubmodel_ok {env : Env} {passName assertMsg s : String} {st : St}
    {p : String} {st' : St} (h : runSubmodel env passName assertMsg s st = (.ok p, st')) :
    st' = pushE (.engineRun s) st := by
  unfold runSubmodel at h
  cases he : env.cfgErr s with
  | some e => rw [he] at h; simp [M.throw] at h
  | none =>
    rw [he] at h
    rcases bind_ok_iff.mp h with ⟨a, st₁, h1, h2⟩
    cases h1
    cases he2 : env.runErr s with
    | some e => rw [he2] at h2; simp [M.throw] at h2
    | none =>
      rw [he2] at h2
      cases he3 : findFootprint passName (env.footprints s) with
      | none => rw [he3] at h2; simp [M.throw] at h2
      | some fp =>
        rw [he3] at h2
        cases h2
        rfl

theorem runSubmodels_ok {env : Env} {passName assertMsg : String} :
    ∀ {subs : List String} {st : St} {ps : List (String × String)} {st' : St},
      runSubmodels env passName assertMsg subs st = (.ok ps, st') →
      st'.dirs = st.dirs ∧ st'.events = st.events ++ subs.map Event.engineRun := by
  intro subs
  induction subs with
  | nil =>
    intro st ps st' h
    cases h
    simp
  | cons s rest ih =>
    intro st ps st' h
    unfold runSubmodels at h
    rcases bind_ok_iff.mp h with ⟨p, st₁, h1, h2⟩
    rcases bind_ok_iff.mp h2 with ⟨ps', st₂, h3, h4⟩
    cases h4
    have h1' := runSubmodel_ok h1
    subst h1'
    rcases ih h3 with ⟨hd, he⟩
    constructor
    · simpa [pushE] using hd
    · rw [he]
      simp [pushE]

theorem copyTreeIf_ok {b : Bool} {src dst : String} {st : St} {a : Unit} {st' : St}
    (h : copyTreeIf b src dst st = (.ok a, st')) :
    st' = st ∨ (dst ∉ st.dirs ∧
      st' = pushE (.copyTree src dst) { st with dirs := st.dirs ++ [dst] }) := by
  unfold copyTreeIf at h
  split at h
  · rcases copyTreeM_ok h with ⟨-, h2, h3⟩
    exact Or.inr ⟨h2, h3⟩
  · cases h
    exact Or.inl rfl

theorem mkdirIfNeeded_ok {parent child : String} {st : St} {a : Unit} {st' : St}
    (h : mkdirIfNeeded parent child st = (.ok a, st')) :
    st' = st ∨
      st' = pushE (.mkdir (pjoin parent child)) { st with dirs := st.dirs ++ [pjoin parent child] } := by
  unfold mkdirIfNeeded at h
  split at h
  · cases h
    exact Or.inl rfl
  · exact Or.inr (mkdirM_ok h).2.2

theorem copyIfFile_ok {env : Env} {src dst dstParent : String} {st : St} {a : Unit} {st' : St}
    (h : copyIfFile env src dst dstParent st = (.ok a, st')) :
    st' = st ∨ st' = pushE (.copyFile src dst) st := by
  unfold copyIfFile at h
  split at h
  · exact Or.inr (copyFileM_ok h)
  · cases h
    exact Or.inl rfl

/-- Effect summary of one successful copy-loop iteration: no engine events
are added, directories only grow, and only by the submodel directory. -/
theorem copySubmodel_ok {env : Env} {outDir s p : String} {st : St} {a : Unit} {st' : St}
    (h : copySubmodel env outDir s p st = (.ok a, st')) :
    engineCount st'.events = engineCount st.events ∧
      (∀ d, d ∈ st'.dirs → d ∈ st.dirs ∨ d = pjoin outDir s) ∧
      (∀ d, d ∈ st.dirs → d ∈ st'.dirs) := by
  unfold copySubmodel at h
  rcases bind_ok_iff.mp h with ⟨a1, st₁, h1, h⟩
  rcases bind_ok_iff.mp h with ⟨a2, st₂, h2, h⟩
  rcases bind_ok_iff.mp h with ⟨a3, st₃, h3, h4⟩
  have h2' := copyFileM_ok h2
  subst h2'
  rcases mkdirIfNeeded_ok h1 with h1' | h1' <;>
    rcases copyIfFile_ok h3 with h3' | h3' <;>
    rcases copyIfFile_ok h4 with h4' | h4' <;>
    subst h4' <;> subst h3' <;> subst h1' <;>
    refine ⟨by simp [engineCount, pushE, isEngineEv], ?_, ?_⟩ <;>
    · intro d hd
      simp [pushE] at hd ⊢
      tauto

/-- Effect summary of a successful copy loop. -/
theorem copyAll_ok {env : Env} {outDir : String} :
    ∀ {ps : List (String × String)} {st : St} {a : Unit} {st' : St},
      copyAll env outDir ps st = (.ok a, st') →
      engineCount st'.events = engineCount st.events ∧
        (∀ d, d ∈ st'.dirs → d ∈ st.dirs ∨ ∃ s, d = pjoin outDir s) ∧
        (∀ d, d ∈ st.dirs → d ∈ st'.dirs) := by
  intro ps
  induction ps with
  | nil =>
    intro st a st' h
    cases h
    exact ⟨rfl, fun d hd => Or.inl hd, fun d hd => hd⟩
  | cons sp rest ih =>
    intro st a st' h
    unfold copyAll at h
    rcases bind_ok_iff.mp h with ⟨a1, st₁, h1, h2⟩
    rcases copySubmodel_ok h1 with ⟨hc, hg, hs⟩
    rcases ih h2 with ⟨hc', hg', hs'⟩
    refine ⟨hc'.trans hc, ?_, fun d hd => hs' d (hs d hd)⟩
    intro d hd
    rcases hg' d hd with hd' | hd'
    · rcases hg d hd' with hd'' | hd''
      · exact Or.inl hd''
      · exact Or.inr ⟨sp.1, hd''⟩
    · exact Or.inr hd'

/-- Full effect summary of a successful stage body: it returns the output
directory, which then exists; the persisted manifest (the serialized
transient-pipeline manifest merged with the pruned `init_dict`) is the last
recorded event; the engine ran once per required sub-component; and the
filesystem changed only by adding the output directory tree and removing
the engine's `cache`/`footprints` work directories. -/
theorem stageBody_ok {env : Env} {P : RawPipeline} {c : Bool}
    {passName assertMsg inDir outDir : String} {st : St} {d : String} {st' : St}
    (h : stageBody env P c passName assertMsg inDir outDir st = (.ok d, st')) :
    d = outDir ∧ outDir ∈ st'.dirs ∧
      (∃ es, st'.events =
        es ++ [.writeManifest outDir (mergeModelIndex env.serialized (pruneInit P.initDict P.submodels))]) ∧
      engineCount st'.events = engineCount st.events + P.submodels.length ∧
      (∀ q, q ∈ st'.dirs → q ∈ st.dirs ∨ q = outDir ∨ ∃ s, q = pjoin outDir s) ∧
      (∀ q, q ∈ st.dirs → inTree "cache" q = false → inTree "footprints" q = false →
        q ∈ st'.dirs) := by
  unfold stageBody at h
  rcases bind_ok_iff.mp h with ⟨u1, s1, hA, h⟩
  rcases bind_ok_iff.mp h with ⟨u2, s2, hB, h⟩
  rcases bind_ok_iff.mp h with ⟨u3, s3, hC, h⟩
  rcases bind_ok_iff.mp h with ⟨paths, s4, hD, h⟩
  rcases bind_ok_iff.mp h with ⟨u5, s5, hE, h⟩
  rcases bind_ok_iff.mp h with ⟨ini, s6, hF, h⟩
  rcases bind_ok_iff.mp h with ⟨u7, s7, hG, h⟩
  rcases bind_ok_iff.mp h with ⟨u8, s8, hH, h⟩
  rw [rmtreeIg_apply] at hA
  cases hA
  rw [rmtreeIg_apply] at hB
  cases hB
  rcases runSubmodels_ok hD with ⟨hDdirs, hDev⟩
  rcases copyAll_ok hE with ⟨hEcnt, hEgrow, hEsup⟩
  rcases loadConverted_ok hF with ⟨hini, hF6⟩
  subst hini
  subst hF6
  have hG' := ctorStep_ok hG
  subst hG'
  rcases writeManifestM_ok hH with ⟨hHmem, hH8⟩
  subst hH8
  cases h
  refine ⟨rfl, ?_, ?_, ?_, ?_, ?_⟩
  · simpa [pushE] using hHmem
  · exact ⟨s7.events, by simp [pushE]⟩
  · have hcnt8 : engineCount (pushE (.writeManifest outDir
        (mergeModelIndex env.serialized (pruneInit P.initDict P.submodels))) s7).events =
        engineCount s7.events := by
      simp [engineCount, pushE, isEngineEv]
    rw [hcnt8, hEcnt, hDev]
    have hmap : engineCount (s3.events ++ P.submodels.map Event.engineRun) =
        engineCount s3.events + P.submodels.length := by
      unfold engineCount
      rw [List.countP_append]
      have hall : List.countP isEngineEv (P.submodels.map Event.engineRun) =
          (P.submodels.map Event.engineRun).length := by
        rw [List.countP_eq_length]
        intro e he
        rcases List.mem_map.mp he with ⟨s, -, rfl⟩
        rfl
      rw [hall, List.length_map]
    rw [hmap]
    have h3ev : engineCount s3.events = engineCount st.events := by
      rcases copyTreeIf_ok hC with h3' | ⟨-, h3'⟩ <;> subst h3' <;>
        simp [engineCount, pushE, isEngineEv, removeTreeSt]
    rw [h3ev]
  · intro q hq
    simp only [pushE] at hq
    rcases hEgrow q hq with hq' | hq'
    · rw [hDdirs] at hq'
      rcases copyTreeIf_ok hC with h3' | ⟨-, h3'⟩ <;> subst h3'
      · exact Or.inl (mem_of_mem_removeTree (mem_of_mem_removeTree hq'))
      · simp [pushE] at hq'
        rcases hq' with hq'' | hq''
        · exact Or.inl (mem_of_mem_removeTree (mem_of_mem_removeTree hq''))
        · exact Or.inr (Or.inl hq'')
    · exact Or.inr (Or.inr hq')
  · intro q hq hq1 hq2
    simp only [pushE]
    apply hEsup
    rw [hDdirs]
    have hmem2 : q ∈ (removeTreeSt "footprints" (removeTreeSt "cache" st)).dirs := by
      exact mem_removeTree_of_not_inTree (mem_removeTree_of_not_inTree hq hq1) hq2
    rcases copyTreeIf_ok hC with h3' | ⟨-, h3'⟩ <;> subst h3'
    · exact hmem2
    · simp [pushE]
      exact Or.inl hmem2

/-! ## Frame predicates: valid for every outcome, error or success -/

/-- Every directory existing after `m` either existed before or satisfies
`A`. -/
def Grows (m : M α) (A : String → Prop) : Prop :=
  ∀ st r st', m st = (r, st') → ∀ d, d ∈ st'.dirs → d ∈ st.dirs ∨ A d

/-- Every directory existing before `m` and not satisfying `R` still exists
after `m`. -/
def Shrinks (m : M α) (R : String → Prop) : Prop :=
  ∀ st r st', m st = (r, st') → ∀ d, d ∈ st.dirs → ¬ R d → d ∈ st'.dirs

theorem grows_bind {α β : Type} {m : M α} {f : α → M β} {A : String → Prop}
    (hm : Grows m A) (hf : ∀ a, Grows (f a) A) : Grows (m >>= f) A := by
  intro st r st' h d hd
  have h' : M.bind' m f st = (r, st') := h
  unfold M.bind' at h'
  rcases hm' : m st with ⟨r₁, st₁⟩
  rw [hm'] at h'
  cases r₁ with
  | ok a =>
    rcases hf a st₁ r st' h' d hd with h1 | h1
    · exact hm st (.ok a) st₁ hm' d h1
    · exact Or.inr h1
  | error e =>
    cases h'
    exact hm st (.error e) st' hm' d hd

theorem grows_mono {α : Type} {m : M α} {A A' : String → Prop}
    (hm : Grows m A) (hAA : ∀ d, A d → A' d) : Grows m A' := by
  intro st r st' h d hd
  rcases hm st r st' h d hd with h1 | h1
  · exact Or.inl h1
  · exact Or.inr (hAA d h1)

theorem shrinks_bind {α β : Type} {m : M α} {f : α → M β} {R : String → Prop}
    (hm : Shrinks m R) (hf : ∀ a, Shrinks (f a) R) : Shrinks (m >>= f) R := by
  intro st r st' h d hd hR
  have h' : M.bind' m f st = (r, st') := h
  unfold M.bind' at h'
  rcases hm' : m st with ⟨r₁, st₁⟩
  rw [hm'] at h'
  cases r₁ with
  | ok a => exact hf a st₁ r st' h' d (hm st (.ok a) st₁ hm' d hd hR) hR
  | error e =>
    cases h'
    exact hm st (.error e) st' hm' d hd hR

theorem shrinks_mono {α : Type} {m : M α} {R R' : String → Prop}
    (hm : Shrinks m R) (hRR : ∀ d, R d → R' d) : Shrinks m R' := by
  intro st r st' h d hd hR
  exact hm st r st' h d hd (fun hx => hR (hRR d hx))

/-- A step whose every outcome leaves `dirs` unchanged or appends to it
both grows within anything and removes nothing. -/
def DirsAug (m : M α) : Prop :=
  ∀ st r st', m st = (r, st') → ∀ d, d ∈ st.dirs → d ∈ st'.dirs

theorem grows_rmtreeIg (x : String) (A : String → Prop) : Grows (rmtreeIg x) A := by
  intro st r st' h d hd
  cases h
  exact Or.inl (mem_of_mem_removeTree hd)

theorem grows_pure {α : Type} (a : α) (A : String → Prop) : Grows (pure a : M α) A := by
  intro st r st' h d hd
  cases h
  exact Or.inl hd

theorem grows_throw {α : Type} (e : Err) (A : String → Prop) : Grows (M.throw e : M α) A := by
  intro st r st' h d hd
  cases h
  exact Or.inl hd

theorem grows_copyTreeIf (b : Bool) (src dst : String) :
    Grows (copyTreeIf b src dst) (fun d => d = dst) := by
  intro st r st' h d hd
  unfold copyTreeIf copyTreeM at h
  split at h
  · split at h
    · split at h
      · cases h
        exact Or.inl hd
      · cases h
        simp [pushE] at hd
        rcases hd with hd | hd
        · exact Or.inl hd
        · exact Or.inr hd
    · cases h
      exact Or.inl hd
  · cases h
    exact Or.inl hd

theorem grows_mkdirIfNeeded (parent child : String) :
    Grows (mkdirIfNeeded parent child) (fun d => d = pjoin parent child) := by
  intro st r st' h d hd
  unfold mkdirIfNeeded mkdirM at h
  split at h
  · cases h
    exact Or.inl hd
  · split at h
    · cases h
      simp [pushE] at hd
      rcases hd with hd | hd
      · exact Or.inl hd
      · exact Or.inr hd
    · cases h
      exact Or.inl hd

theorem grows_copyFileM (env : Env) (s d dp : String) (A : String → Prop) :
    Grows (copyFileM env s d dp) A := by
  intro st r st' h q hq
  unfold copyFileM at h
  split at h
  · split at h
    · cases h
      exact Or.inl hq
    · cases h
      exact Or.inl hq
  · cases h
    exact Or.inl hq

theorem grows_copyIfFile (env : Env) (s d dp : String) (A : String → Prop) :
    Grows (copyIfFile env s d dp) A := by
  intro st r st' h q hq
  unfold copyIfFile at h
  split at h
  · exact grows_copyFileM env s d dp A st r st' h q hq
  · cases h
    exact Or.inl hq

theorem grows_writeManifestM (dir : String) (c : List (String × Value)) (A : String → Prop) :
    Grows (writeManifestM dir c) A := by
  intro st r st' h q hq
  unfold writeManifestM at h
  split at h <;> cases h <;> exact Or.inl hq

theorem grows_ctorStep (env : Env) (A : String → Prop) : Grows (ctorStep env) A := by
  intro st r st' h q hq
  unfold ctorStep at h
  cases he : env.ctorErr with
  | some e => rw [he] at h; cases h; exact Or.inl hq
  | none => rw [he] at h; cases h; exact Or.inl hq

theorem grows_runSubmodel (env : Env) (p m s : String) (A : String → Prop) :
    Grows (runSubmodel env p m s) A := by
  intro st r st' h q hq
  unfold runSubmodel at h
  cases he : env.cfgErr s with
  | some e => rw [he] at h; cases h; exact Or.inl hq
  | none =>
    rw [he] at h
    refine (grows_bind ?_ ?_) st r st' h q hq
    · intro st₀ r₀ st₀' h₀ d hd
      cases h₀
      exact Or.inl hd
    · intro a
      cases he2 : env.runErr s with
      | some e => simp only [he2]; exact grows_throw e A
      | none =>
        simp only [he2]
        cases he3 : findFootprint p (env.footprints s) with
        | none => simp only [he3]; exact grows_throw _ A
        | some fp => simp only [he3]; exact grows_pure _ A

theorem grows_runSubmodels (env : Env) (p m : String) (A : String → Prop) :
    ∀ subs : List String, Grows (runSubmodels env p m subs) A := by
  intro subs
  induction subs with
  | nil => exact grows_pure _ A
  | cons s rest ih =>
    unfold runSubmodels
    exact grows_bind (grows_runSubmodel env p m s A)
      (fun _ => grows_bind ih (fun _ => grows_pure _ A))

theorem grows_loadConverted (env : Env) (A : String → Prop) :
    ∀ (subs : List String) (ini : List (String × Value)),
      Grows (loadConverted env subs ini) A := by
  intro subs
  induction subs with
  | nil => intro ini; exact grows_pure _ A
  | cons s rest ih =>
    intro ini
    unfold loadConverted
    cases he : env.loadModelErr s with
    | some e => exact grows_throw e A
    | none => exact ih _

theorem grows_copySubmodel (env : Env) (outDir s p : String) :
    Grows (copySubmodel env outDir s p) (fun d => ∃ x, d = pjoin outDir x) := by
  unfold copySubmodel
  refine grows_bind (grows_mono (grows_mkdirIfNeeded outDir s) ?_) (fun _ => ?_)
  · intro d hd
    exact ⟨s, hd⟩
  · refine grows_bind (grows_copyFileM env _ _ _ _) (fun _ => ?_)
    exact grows_bind (grows_copyIfFile env _ _ _ _) (fun _ => grows_copyIfFile env _ _ _ _)

theorem grows_copyAll (env : Env) (outDir : String) :
    ∀ ps : List (String × String),
      Grows (copyAll env outDir ps) (fun d => ∃ x, d = pjoin outDir x) := by
  intro ps
  induction ps with
  | nil => exact grows_pure _ _
  | cons sp rest ih =>
    unfold copyAll
    exact grows_bind (grows_copySubmodel env outDir sp.1 sp.2) (fun _ => ih)

/-- Whatever happens inside a stage body — success or exception at any
point — the only directories it can have created are the output directory
and its submodel subdirectories. -/
theorem grows_stageBody (env : Env) (P : RawPipeline) (c : Bool)
    (passName assertMsg inDir outDir : String) :
    Grows (stageBody env P c passName assertMsg inDir outDir)
      (fun d => d = outDir ∨ ∃ x, d = pjoin outDir x) := by
  unfold stageBody
  refine grows_bind (grows_rmtreeIg _ _) (fun _ => ?_)
  refine grows_bind (grows_rmtreeIg _ _) (fun _ => ?_)
  refine grows_bind (grows_mono (grows_copyTreeIf c inDir outDir) (fun d hd => Or.inl hd)) (fun _ => ?_)
  refine grows_bind (grows_runSubmodels env _ _ _ _) (fun paths => ?_)
  refine grows_bind (grows_mono (grows_copyAll env outDir paths) (fun d hd => Or.inr hd)) (fun _ => ?_)
  refine grows_bind (grows_loadConverted env _ _ _) (fun ini => ?_)
  refine grows_bind (grows_ctorStep env _) (fun _ => ?_)
  exact grows_bind (grows_writeManifestM _ _ _) (fun _ => grows_pure _ _)

theorem shrinks_rmtreeIg (x : String) :
    Shrinks (rmtreeIg x) (fun d => inTree x d = true) := by
  intro st r st' h d hd hR
  cases h
  cases hbe : inTree x d with
  | false => exact mem_removeTree_of_not_inTree hd hbe
  | true => exact absurd hbe hR

theorem shrinks_of_dirsAug {α : Type} {m : M α} (hm : DirsAug m) (R : String → Prop) :
    Shrinks m R := by
  intro st r st' h d hd _
  exact hm st r st' h d hd

theorem dirsAug_pure {α : Type} (a : α) : DirsAug (pure a : M α) := by
  intro st r st' h d hd
  cases h
  exact hd

theorem dirsAug_throw {α : Type} (e : Err) : DirsAug (M.throw e : M α) := by
  intro st r st' h d hd
  cases h
  exact hd

theorem dirsAug_copyTreeIf (b : Bool) (src dst : String) : DirsAug (copyTreeIf b src dst) := by
  intro st r st' h d hd
  unfold copyTreeIf copyTreeM at h
  split at h
  · split at h
    · split at h
      · cases h
        exact hd
      · cases h
        simp [pushE]
        exact Or.inl hd
    · cases h
      exact hd
  · cases h
    exact hd

theorem dirsAug_mkdirIfNeeded (parent child : String) : DirsAug (mkdirIfNeeded parent child) := by
  intro st r st' h d hd
  unfold mkdirIfNeeded mkdirM at h
  split at h
  · cases h
    exact hd
  · split at h
    · cases h
      simp [pushE]
      exact Or.inl hd
    · cases h
      exact hd

theorem dirsAug_copyFileM (env : Env) (s d dp : String) : DirsAug (copyFileM env s d dp) := by
  intro st r st' h q hq
  unfold copyFileM at h
  split at h
  · split at h <;> cases h <;> exact hq
  · cases h
    exact hq

theorem dirsAug_copyIfFile (env : Env) (s d dp : String) : DirsAug (copyIfFile env s d dp) := by
  intro st r st' h q hq
  unfold copyIfFile at h
  split at h
  · exact dirsAug_copyFileM env s d dp st r st' h q hq
  · cases h
    exact hq

theorem dirsAug_writeManifestM (dir : String) (c : List (String × Value)) :
    DirsAug (writeManifestM dir c) := by
  intro st r st' h q hq
  unfold writeManifestM at h
  split at h <;> cases h <;> exact hq

theorem dirsAug_ctorStep (env : Env) : DirsAug (ctorStep env) := by
  intro st r st' h q hq
  unfold ctorStep at h
  cases he : env.ctorErr with
  | some e => rw [he] at h; cases h; exact hq
  | none => rw [he] at h; cases h; exact hq

theorem dirsAug_bind {α β : Type} {m : M α} {f : α → M β}
    (hm : DirsAug m) (hf : ∀ a, DirsAug (f a)) : DirsAug (m >>= f) := by
  intro st r st' h d hd
  have h' : M.bind' m f st = (r, st') := h
  unfold M.bind' at h'
  rcases hm' : m st with ⟨r₁, st₁⟩
  rw [hm'] at h'
  cases r₁ with
  | ok a => exact hf a st₁ r st' h' d (hm st (.ok a) st₁ hm' d hd)
  | error e =>
    cases h'
    exact hm st (.error e) st' hm' d hd

theorem dirsAug_runSubmodel (env : Env) (p m s : String) : DirsAug (runSubmodel env p m s) := by
  unfold runSubmodel
  cases he : env.cfgErr s with
  | some e => simp only [he]; exact dirsAug_throw e
  | none =>
    simp only [he]
    refine dirsAug_bind ?_ (fun a => ?_)
    · intro st r st' h d hd
      cases h
      exact hd
    · cases he2 : env.runErr s with
      | some e => simp only [he2]; exact dirsAug_throw e
      | none =>
        simp only [he2]
        cases he3 : findFootprint p (env.footprints s) with
        | none => simp only [he3]; exact dirsAug_throw _
        | some fp => simp only [he3]; exact dirsAug_pure _

theorem dirsAug_runSubmodels (env : Env) (p m : String) :
    ∀ subs : List String, DirsAug (runSubmodels env p m subs) := by
  intro subs
  induction subs with
  | nil => exact dirsAug_pure _
  | cons s rest ih =>
    unfold runSubmodels
    exact dirsAug_bind (dirsAug_runSubmodel env p m s)
      (fun _ => dirsAug_bind ih (fun _ => dirsAug_pure _))

theorem dirsAug_loadConverted (env : Env) :
    ∀ (subs : List String) (ini : List (String × Value)),
      DirsAug (loadConverted env subs ini) := by
  intro subs
  induction subs with
  | nil => intro ini; exact dirsAug_pure _
  | cons s rest ih =>
    intro ini
    unfold loadConverted
    cases he : env.loadModelErr s with
    | some e => exact dirsAug_throw e
    | none => exact ih _

theorem dirsAug_copySubmodel (env : Env) (outDir s p : String) :
    DirsAug (copySubmodel env outDir s p) := by
  unfold copySubmodel
  exact dirsAug_bind (dirsAug_mkdirIfNeeded outDir s) (fun _ =>
    dirsAug_bind (dirsAug_copyFileM env _ _ _) (fun _ =>
      dirsAug_bind (dirsAug_copyIfFile env _ _ _) (fun _ => dirsAug_copyIfFile env _ _ _)))

theorem dirsAug_copyAll (env : Env) (outDir : String) :
    ∀ ps : List (String × String), DirsAug (copyAll env outDir ps) := by
  intro ps
  induction ps with
  | nil => exact dirsAug_pure _
  | cons sp rest ih =>
    unfold copyAll
    exact dirsAug_bind (dirsAug_copySubmodel env outDir sp.1 sp.2) (fun _ => ih)

/-- Whatever happens inside a stage body, the only directories it can have
removed lie in the `cache` or `footprints` trees (the engine work
directories it clears up front). -/
theorem shrinks_stageBody (env : Env) (P : RawPipeline) (c : Bool)
    (passName assertMsg inDir outDir : String) :
    Shrinks (stageBody env P c passName assertMsg inDir outDir)
      (fun d => inTree "cache" d = true ∨ inTree "footprints" d = true) := by
  unfold stageBody
  refine shrinks_bind (shrinks_mono (shrinks_rmtreeIg "cache") (fun d hd => Or.inl hd)) (fun _ => ?_)
  refine shrinks_bind (shrinks_mono (shrinks_rmtreeIg "footprints") (fun d hd => Or.inr hd)) (fun _ => ?_)
  refine shrinks_bind (shrinks_of_dirsAug (dirsAug_copyTreeIf c inDir outDir) _) (fun _ => ?_)
  refine shrinks_bind (shrinks_of_dirsAug (dirsAug_runSubmodels env _ _ _) _) (fun paths => ?_)
  refine shrinks_bind (shrinks_of_dirsAug (dirsAug_copyAll env outDir paths) _) (fun _ => ?_)
  refine shrinks_bind (shrinks_of_dirsAug (dirsAug_loadConverted env _ _) _) (fun ini => ?_)
  refine shrinks_bind (shrinks_of_dirsAug (dirsAug_ctorStep env) _) (fun _ => ?_)
  exact shrinks_bind (shrinks_of_dirsAug (dirsAug_writeManifestM _ _) _)
    (fun _ => shrinks_of_dirsAug (dirsAug_pure _) _)

/-! ## Stage-level lemmas -/

/-- A failed conversion (result `none`) always ends in the except-block:
the scratch directory and the output cache directory are gone and the two
error logs (context + original error text) are the last events. -/
theorem convert_none {env : Env} {opts : Opts} {P : RawPipeline} {inDir : String}
    {st st' : St} (h : convert env opts P inDir st = (st', none)) :
    opts.tempDir ∉ st'.dirs ∧ convOutDir opts P ∉ st'.dirs ∧
      ∃ e es, st'.events = es ++
        [.logError ("Failed to convert model '" ++ P.originalFilename ++ "'."),
          .logError (errText e)] := by
  unfold convert at h
  by_cases hmem : convOutDir opts P ∈ st.dirs
  · rw [if_pos hmem] at h
    simp at h
  · rw [if_neg hmem] at h
    rcases hb : stageBody env P opts.cacheConverted "OnnxConversion" "Failed to convert model"
        inDir (convOutDir opts P) st with ⟨r, stb⟩
    rw [hb] at h
    cases r with
    | ok d' => simp at h
    | error e =>
      cases h
      refine ⟨?_, not_mem_removeTree_self _ _, e, stb.events, ?_⟩
      · exact not_mem_removeTree (not_mem_removeTree_self _ _)
      · simp [failCleanup, pushE, removeTreeSt]

/-- A successful conversion returns the cache directory, which then
exists. -/
theorem convert_some {env : Env} {opts : Opts} {P : RawPipeline} {inDir : String}
    {st st' : St} {d : String} (h : convert env opts P inDir st = (st', some d)) :
    d = convOutDir opts P ∧ convOutDir opts P ∈ st'.dirs := by
  unfold convert at h
  by_cases hmem : convOutDir opts P ∈ st.dirs
  · rw [if_pos hmem] at h
    cases h
    exact ⟨rfl, hmem⟩
  · rw [if_neg hmem] at h
    rcases hb : stageBody env P opts.cacheConverted "OnnxConversion" "Failed to convert model"
        inDir (convOutDir opts P) st with ⟨r, stb⟩
    rw [hb] at h
    cases r with
    | ok d' =>
      cases h
      rcases stageBody_ok hb with ⟨hd', hmem', -⟩
      exact ⟨hd', hd' ▸ hmem'⟩
    | error e => simp at h

/-- A failed optimization: the scratch directory is gone, the optimization
cache directory does not exist, and the two error logs are the last
events.  The inequality hypotheses separate the optimization cache key from
the scratch directory and its submodel subdirectories (they live under
different roots in any real configuration). -/
theorem optimize_none {env : Env} {opts : Opts} {P : RawPipeline} {cfg : RunConfig}
    {inDir : String} {st st' : St}
    (h : optimize env opts P cfg inDir st = (st', none)) :
    opts.tempDir ∉ st'.dirs ∧
      ((optOutDir opts.cachedModelsPath P.originalFilename cfg.width cfg.height ≠ opts.tempDir) →
        (∀ x, optOutDir opts.cachedModelsPath P.originalFilename cfg.width cfg.height ≠
          pjoin opts.tempDir x) →
        optOutDir opts.cachedModelsPath P.originalFilename cfg.width cfg.height ∉ st'.dirs) ∧
      ∃ e es, st'.events = es ++
        [.logError ("Failed to optimize model '" ++ P.originalFilename ++ "'."),
          .logError (errText e)] := by
  unfold optimize at h
  set cacheOut := optOutDir opts.cachedModelsPath P.originalFilename cfg.width cfg.height with hco
  by_cases hmem : cacheOut ∈ st.dirs
  · rw [if_pos hmem] at h
    simp at h
  · rw [if_neg hmem] at h
    cases hopt : opts.cacheOptimized with
    | true =>
      rw [hopt] at h
      simp only [if_true, ite_true] at h
      rcases hb : stageBody env P true "OrtTransformersOptimization" "Failed to optimize model"
          inDir cacheOut st with ⟨r, stb⟩
      rw [hb] at h
      cases r with
      | ok d' => simp at h
      | error e =>
        cases h
        refine ⟨?_, fun _ _ => not_mem_removeTree_self _ _, e, stb.events, ?_⟩
        · exact not_mem_removeTree (not_mem_removeTree_self _ _)
        · simp [failCleanup, pushE, removeTreeSt]
    | false =>
      rw [hopt] at h
      simp only [Bool.false_eq_true, if_false] at h
      rcases hb : stageBody env P false "OrtTransformersOptimization" "Failed to optimize model"
          inDir opts.tempDir st with ⟨r, stb⟩
      rw [hb] at h
      cases r with
      | ok d' => simp at h
      | error e =>
        cases h
        refine ⟨?_, ?_, e, stb.events, ?_⟩
        · exact not_mem_removeTree_self _ _
        · intro hne hsub
          have hnotb : cacheOut ∉ stb.dirs := by
            intro hin
            rcases grows_stageBody env P false "OrtTransformersOptimization"
                "Failed to optimize model" inDir opts.tempDir st (.error e) stb hb cacheOut hin with
              h1 | h1 | ⟨x, h1⟩
            · exact hmem h1
            · exact hne h1
            · exact hsub x h1
          exact not_mem_removeTree (not_mem_removeTree hnotb)
        · simp [failCleanup, pushE, removeTreeSt]

/-- Whatever `optimize` does (hit, success or failure), a directory outside
the `cache`/`footprints` work trees, the scratch tree and the optimization
cache tree survives it. -/
theorem optimize_preserves {env : Env} {opts : Opts} {P : RawPipeline} {cfg : RunConfig}
    {inDir : String} {st st' : St} {r : Option String} {d : String}
    (h : optimize env opts P cfg inDir st = (st', r))
    (hd : d ∈ st.dirs)
    (h1 : inTree "cache" d = false) (h2 : inTree "footprints" d = false)
    (h3 : inTree opts.tempDir d = false)
    (h4 : inTree (optOutDir opts.cachedModelsPath P.originalFilename cfg.width cfg.height) d
      = false) :
    d ∈ st'.dirs := by
  unfold optimize at h
  set cacheOut := optOutDir opts.cachedModelsPath P.originalFilename cfg.width cfg.height with hco
  by_cases hmem : cacheOut ∈ st.dirs
  · rw [if_pos hmem] at h
    cases h
    exact hd
  · rw [if_neg hmem] at h
    have hbody : ∀ (c : Bool) (outUsed : String), inTree outUsed d = false →
        (match stageBody env P c "OrtTransformersOptimization" "Failed to optimize model"
            inDir outUsed st with
          | (.ok d', st₁) => (st₁, some d')
          | (.error e, st₁) =>
            (failCleanup opts P "Failed to optimize" e outUsed st₁, none)) = (st', r) →
        d ∈ st'.dirs := by
      intro c outUsed hout hm
      rcases hb : stageBody env P c "OrtTransformersOptimization" "Failed to optimize model"
          inDir outUsed st with ⟨rb, stb⟩
      rw [hb] at hm
      have hsurv : d ∈ stb.dirs := by
        refine shrinks_stageBody env P c "OrtTransformersOptimization"
          "Failed to optimize model" inDir outUsed st rb stb hb d hd ?_
        intro hR
        rcases hR with hR | hR
        · rw [h1] at hR; cases hR
        · rw [h2] at hR; cases hR
      cases rb with
      | ok d' =>
        cases hm
        exact hsurv
      | error e =>
        cases hm
        refine mem_removeTree_of_not_inTree (mem_removeTree_of_not_inTree hsurv h3) hout
    cases hopt : opts.cacheOptimized with
    | true =>
      rw [hopt] at h
      simp only [if_true, ite_true] at h
      exact hbody true cacheOut h4 h
    | false =>
      rw [hopt] at h
      simp only [Bool.false_eq_true, if_false] at h
      exact hbody false opts.tempDir h3 h

/-! ## Orchestrator branch lemmas -/

theorem preprocess_fallbackA {envC envO : Env} {opts : Opts} {P : RawPipeline}
    {b hgt w : Nat} {st st₁ : St}
    (h : convert envC opts P (preprocessInDir opts P st) st = (st₁, none)) :
    preprocess envC envO opts P b hgt w st =
      (pushE (.logError "Failed to convert model. The generation will fall back to unconverted one.") st₁,
        .ok ⟨origCtor P.isSdxl, P.path⟩) := by
  simp only [preprocess]
  rw [h]

theorem preprocess_fallbackB {envC envO : Env} {opts : Opts} {P : RawPipeline}
    {b hgt w : Nat} {st st₁ st₄ : St} {cd : String}
    (hol : opts.enableOlive = true)
    (hc : convert envC opts P (preprocessInDir opts P st) st = (st₁, some cd))
    (ho : optimize envO opts P (preprocessConfig P b hgt w) cd (oliveAdvisories w hgt st₁) =
      (st₄, none)) :
    preprocess envC envO opts P b hgt w st =
      (pushE (.logError "Failed to optimize pipeline. The generation will fall back to unoptimized one.") st₄,
        .ok ⟨onnxCtor P.isSdxl, cd⟩) := by
  simp only [preprocess]
  rw [hc, hol]
  simp only [if_true, ite_true]
  rw [ho]

theorem preprocess_oliveOff {envC envO : Env} {opts : Opts} {P : RawPipeline}
    {b hgt w : Nat} {st st₁ : St} {cd : String}
    (hol : opts.enableOlive = false)
    (hc : convert envC opts P (preprocessInDir opts P st) st = (st₁, some cd)) :
    preprocess envC envO opts P b hgt w st = finishPre opts P cd cd st₁ := by
  simp only [preprocess]
  rw [hc, hol]
  simp only [Bool.false_eq_true, if_false]

theorem preprocess_oliveOn_success {envC envO : Env} {opts : Opts} {P : RawPipeline}
    {b hgt w : Nat} {st st₁ st₄ : St} {cd od : String}
    (hol : opts.enableOlive = true)
    (hc : convert envC opts P (preprocessInDir opts P st) st = (st₁, some cd))
    (ho : optimize envO opts P (preprocessConfig P b hgt w) cd (oliveAdvisories w hgt st₁) =
      (st₄, some od)) :
    preprocess envC envO opts P b hgt w st = finishPre opts P cd od st₄ := by
  simp only [preprocess]
  rw [hc, hol]
  simp only [if_true, ite_true]
  rw [ho]

/-- What a non-raising S3 finalization guarantees: the scratch directory is
gone, the pipeline comes from the chosen output directory via the
graph-backed constructor, and when the converted cache is not retained the
converted directory is gone. -/
theorem finishPre_ok {opts : Opts} {P : RawPipeline} {cd od : String} {st stF : St}
    {pipe : Pipe} (h : finishPre opts P cd od st = (stF, .ok pipe)) :
    opts.tempDir ∉ stF.dirs ∧ pipe = ⟨onnxCtor P.isSdxl, od⟩ ∧
      (opts.cacheConverted = false → cd ∉ stF.dirs) := by
  unfold finishPre at h
  split at h
  · cases h
    refine ⟨not_mem_removeTree_self _ _, rfl, ?_⟩
    intro hcc
    simp_all
  · split at h
    · cases h
      exact ⟨not_mem_removeTree_self _ _, rfl,
        fun _ => not_mem_removeTree (not_mem_removeTree_self _ _)⟩
    · simp at h

/-! ## Decimal rendering: digits and injectivity -/

/-- Numeric value of a digit character. -/
def digitVal (c : Char) : Nat := c.toNat - 48

/-- Decoder for least-significant-first digit lists. -/
def decVal : List Char → Nat
  | [] => 0
  | c :: cs => digitVal c + 10 * decVal cs

theorem digitVal_decDigit {d : Nat} (h : d < 10) : digitVal (decDigit d) = d := by
  interval_cases d <;> decide

theorem decDigit_isDigit {d : Nat} (h : d < 10) : (decDigit d).isDigit = true := by
  interval_cases d <;> decide

theorem decVal_natDecFuel : ∀ fuel n : Nat, n ≤ fuel → decVal (natDecFuel fuel n) = n := by
  intro fuel
  induction fuel with
  | zero =>
    intro n hn
    interval_cases n
    rfl
  | succ fuel ih =>
    intro n hn
    unfold natDecFuel
    split
    · subst ‹n = 0›
      rfl
    · rename_i h0
      show digitVal (decDigit (n % 10)) + 10 * decVal (natDecFuel fuel (n / 10)) = n
      have hdiv : n / 10 ≤ fuel := by
        have : n / 10 < n := Nat.div_lt_self (Nat.pos_of_ne_zero h0) (by decide)
        omega
      rw [digitVal_decDigit (Nat.mod_lt _ (by decide)), ih (n / 10) hdiv]
      exact Nat.mod_add_div n 10

theorem decVal_natDecAux (n : Nat) : decVal (natDecAux n) = n :=
  decVal_natDecFuel n n (Nat.le_refl n)

theorem natDecFuel_digits : ∀ fuel n : Nat, ∀ c ∈ natDecFuel fuel n, c.isDigit = true := by
  intro fuel
  induction fuel with
  | zero => intro n c hc; cases hc
  | succ fuel ih =>
    intro n c hc
    unfold natDecFuel at hc
    split at hc
    · cases hc
    · rcases List.mem_cons.mp hc with rfl | hc2
      · exact decDigit_isDigit (Nat.mod_lt _ (by decide))
      · exact ih (n / 10) c hc2

theorem natDecAux_digits (n : Nat) : ∀ c ∈ natDecAux n, c.isDigit = true :=
  natDecFuel_digits n n

theorem natDec_digits (n : Nat) : ∀ c ∈ (natDec n).data, c.isDigit = true := by
  intro c hc
  unfold natDec at hc
  split at hc
  · have hc' : c ∈ ['0'] := hc
    have hc0 : c = '0' := by simpa using hc'
    subst hc0
    decide
  · have : c ∈ (natDecAux n).reverse := hc
    exact natDecAux_digits n c (List.mem_reverse.mp this)

theorem natDec_inj {a b : Nat} (h : natDec a = natDec b) : a = b := by
  have hd := congrArg String.data h
  unfold natDec at hd
  by_cases ha : a = 0 <;> by_cases hb : b = 0
  · rw [ha, hb]
  · rw [if_pos ha, if_neg hb] at hd
    have hrev : (natDecAux b).reverse = ['0'] := hd.symm
    have : natDecAux b = ['0'] := by
      have := congrArg List.reverse hrev
      simpa using this
    have hb' : b = 0 := by
      have h2 := decVal_natDecAux b
      rw [this] at h2
      simpa [decVal, digitVal] using h2.symm
    exact absurd hb' hb
  · rw [if_neg ha, if_pos hb] at hd
    have hrev : (natDecAux a).reverse = ['0'] := hd
    have : natDecAux a = ['0'] := by
      have := congrArg List.reverse hrev
      simpa using this
    have ha' : a = 0 := by
      have h2 := decVal_natDecAux a
      rw [this] at h2
      simpa [decVal, digitVal] using h2.symm
    exact absurd ha' ha
  · rw [if_neg ha, if_neg hb] at hd
    have : natDecAux a = natDecAux b := by
      have := congrArg List.reverse hd
      simpa using this
    have h2 := decVal_natDecAux a
    rw [this, decVal_natDecAux b] at h2
    exact h2.symm

/-- Cancellation around a separator that cannot occur in the two flanking
digit blocks. -/
theorem sep_split {p : Char → Bool} :
    ∀ (as as' : List Char) (t t' : List Char) (c : Char),
      (∀ a ∈ as, p a = true) → (∀ a ∈ as', p a = true) → p c = false →
      as ++ c :: t = as' ++ c :: t' → as = as' ∧ t = t' := by
  intro as
  induction as with
  | nil =>
    intro as' t t' c _ ha' hc h
    cases as' with
    | nil =>
      simp at h
      exact ⟨rfl, h⟩
    | cons a' rest' =>
      simp at h
      rcases h with ⟨rfl, -⟩
      rw [ha' c (List.mem_cons_self _ _)] at hc
      cases hc
  | cons a rest ih =>
    intro as' t t' c ha ha' hc h
    cases as' with
    | nil =>
      simp at h
      rcases h with ⟨rfl, -⟩
      rw [ha a (List.mem_cons_self _ _)] at hc  -- hmm: here c = a
      cases hc
    | cons a' rest' =>
      simp at h
      rcases h with ⟨rfl, h2⟩
      rcases ih rest' t t' c (fun x hx => ha x (List.mem_cons_of_mem _ hx))
        (fun x hx => ha' x (List.mem_cons_of_mem _ hx)) hc h2 with ⟨rfl, rfl⟩
      exact ⟨rfl, rfl⟩

/-- The optimization cache key `<fname>-<w>w-<h>h` determines and is
determined by the pair (width, height), for any fixed source filename. -/
theorem optKey_inj {f : String} {w h w' h' : Nat}
    (heq : f ++ "-" ++ natDec w ++ "w-" ++ natDec h ++ "h" =
      f ++ "-" ++ natDec w' ++ "w-" ++ natDec h' ++ "h") : w = w' ∧ h = h' := by
  have hdash : ("-" : String).data = ['-'] := rfl
  have hwd : ("w-" : String).data = ['w', '-'] := rfl
  have hh : ("h" : String).data = ['h'] := rfl
  have hd := congrArg String.data heq
  simp only [String.data_append, hdash, hwd, hh, List.append_assoc, List.singleton_append,
    List.cons_append, List.nil_append] at hd
  have hd2 := List.append_cancel_left hd
  have hd3 := (List.cons.inj hd2).2
  rcases sep_split (p := Char.isDigit) _ _ _ _ 'w' (natDec_digits w) (natDec_digits w')
      rfl hd3 with ⟨hw, ht⟩
  have ht2 := (List.cons.inj ht).2
  rcases sep_split (p := Char.isDigit) _ _ _ _ 'h' (natDec_digits h) (natDec_digits h')
      rfl ht2 with ⟨hh2, -⟩
  exact ⟨natDec_inj (String.ext hw), natDec_inj (String.ext hh2)⟩

/-! ## Manifest-loader lemmas -/

/-- Keys of a dict. -/
def dkeys (m : List (String × Value)) : List String := m.map Prod.fst

/-- An entry value whose reference pair has a missing (`None`) member. -/
def nullMember (v : Value) : Bool :=
  match v with
  | .lit _ => false
  | .ref l => decide (l[0]? = some none) || decide (l[1]? = some none)

/-- A value the loader can process without raising: non-list, or a list
with a `None` first member (short-circuited), or a list of length ≥ 2. -/
def valueSafe (v : Value) : Bool :=
  match v with
  | .lit _ => true
  | .ref l => decide (l[0]? = some none) || decide (2 ≤ l.length)

theorem dlookup_none_iff {k : String} :
    ∀ {m : List (String × Value)}, dlookup m k = none ↔ k ∉ dkeys m := by
  intro m
  induction m with
  | nil => simp [dlookup, dkeys]
  | cons kv rest ih =>
    rcases kv with ⟨k₀, v₀⟩
    by_cases h : k₀ = k
    · subst h
      simp [dlookup, dkeys]
    · simp [dlookup, dkeys, h, ih, Ne.symm h]

theorem dkeys_mapReplace (k : String) (v : Value) :
    ∀ m : List (String × Value),
      dkeys (m.map (fun p => if p.1 = k then (k, v) else p)) = dkeys m := by
  intro m
  induction m with
  | nil => rfl
  | cons kv rest ih =>
    rcases kv with ⟨k₀, v₀⟩
    unfold dkeys
    simp only [List.map_cons]
    congr 1
    by_cases h0 : k₀ = k <;> simp [h0]

theorem dkeys_dinsert_of_contains {m : List (String × Value)} {k : String} {v : Value}
    (h : dcontains m k = true) : dkeys (dinsert m k v) = dkeys m := by
  unfold dinsert
  rw [h]
  simp only [if_true, ite_true]
  exact dkeys_mapReplace k v m

theorem nodupKeys_dinsert {m : List (String × Value)} {k : String} {v : Value}
    (h : (dkeys m).Nodup) : (dkeys (dinsert m k v)).Nodup := by
  by_cases hc : dcontains m k = true
  · rw [dkeys_dinsert_of_contains hc]
    exact h
  · unfold dinsert
    rw [Bool.not_eq_true] at hc
    rw [hc]
    simp only [Bool.false_eq_true, if_false]
    have hk : k ∉ dkeys m := by
      rw [← dlookup_none_iff]
      revert hc
      unfold dcontains
      cases dlookup m k <;> simp
    have : dkeys (m ++ [(k, v)]) = dkeys m ++ [k] := by
      simp [dkeys]
    rw [this]
    simp [List.nodup_append, h, hk]

theorem nodupKeys_dictUpdate {d : List (String × Value)} :
    ∀ {onto : List (String × Value)}, (dkeys onto).Nodup → (dkeys (dictUpdate onto d)).Nodup := by
  induction d with
  | nil => intro onto h; exact h
  | cons kv rest ih =>
    intro onto h
    unfold dictUpdate
    rw [List.foldl_cons]
    exact ih (nodupKeys_dinsert h)

theorem nodupKeys_merged : ∀ extracted : List (List (String × Value)),
    (dkeys (extracted.foldl dictUpdate [])).Nodup := by
  have haux : ∀ (extracted : List (List (String × Value))) (acc : List (String × Value)),
      (dkeys acc).Nodup → (dkeys (extracted.foldl dictUpdate acc)).Nodup := by
    intro extracted
    induction extracted with
    | nil => intro acc h; exact h
    | cons d rest ih =>
      intro acc h
      rw [List.foldl_cons]
      exact ih _ (nodupKeys_dictUpdate h)
  intro extracted
  exact haux extracted [] (by simp [dkeys])

/-- Processing one entry: a safe entry never raises; an entry with a
missing member is sent to the skip branch (and logged), and an entry the
loader keeps has no missing member. -/
theorem buildInitDict_cons_step (k' : String) (v' : Value)
    (rest R : List (String × Value)) (logs : List String)
    (hsafe : valueSafe v' = true) :
    (nullMember v' = true ∧
      buildInitDict ((k', v') :: rest) R logs = buildInitDict rest R (logs ++ [k'])) ∨
    (nullMember v' = false ∧
      (buildInitDict ((k', v') :: rest) R logs = buildInitDict rest R logs ∨
        buildInitDict ((k', v') :: rest) R logs = buildInitDict rest (dinsert R k' v') logs)) := by
  cases v' with
  | lit s =>
    right
    refine ⟨rfl, Or.inl ?_⟩
    rfl
  | ref l =>
    by_cases h0 : l[0]? = some none
    · left
      refine ⟨by simp [nullMember, h0], ?_⟩
      show (do
        let x0 ← pyGet l 0
        if x0 = none then buildInitDict rest R (logs ++ [k'])
        else do
          let x1 ← pyGet l 1
          if x1 = none then buildInitDict rest R (logs ++ [k'])
          else buildInitDict rest (dinsert R k' (.ref l)) logs) = _
      have hp : pyGet l 0 = .ok none := by simp [pyGet, h0]
      rw [hp]
      simp [Bind.bind, Except.bind]
    · have hlen : 2 ≤ l.length := by
        have := hsafe
        simp [valueSafe, h0] at this
        exact this
      have h0' : ∃ a, l[0]? = some a := by
        cases hg : l[0]? with
        | none =>
          rw [List.getElem?_eq_none_iff] at hg
          omega
        | some a => exact ⟨a, rfl⟩
      rcases h0' with ⟨x0, hx0⟩
      have h1' : ∃ b, l[1]? = some b := by
        cases hg : l[1]? with
        | none =>
          rw [List.getElem?_eq_none_iff] at hg
          omega
        | some b => exact ⟨b, rfl⟩
      rcases h1' with ⟨x1, hx1⟩
      have hp0 : pyGet l 0 = .ok x0 := by simp [pyGet, hx0]
      have hp1 : pyGet l 1 = .ok x1 := by simp [pyGet, hx1]
      have hbody : buildInitDict ((k', .ref l) :: rest) R logs =
          (if x0 = none then buildInitDict rest R (logs ++ [k'])
          else if x1 = none then buildInitDict rest R (logs ++ [k'])
          else buildInitDict rest (dinsert R k' (.ref l)) logs) := by
        show (do
          let y0 ← pyGet l 0
          if y0 = none then buildInitDict rest R (logs ++ [k'])
          else do
            let y1 ← pyGet l 1
            if y1 = none then buildInitDict rest R (logs ++ [k'])
            else buildInitDict rest (dinsert R k' (.ref l)) logs) = _
        rw [hp0, hp1]
        simp [Bind.bind, Except.bind]
      cases x0 with
      | none =>
        left
        refine ⟨by simp [nullMember, hx0], ?_⟩
        rw [hbody]
        simp
      | some a =>
        cases x1 with
        | none =>
          left
          refine ⟨by simp [nullMember, hx1], ?_⟩
          rw [hbody]
          simp
        | some b =>
          right
          refine ⟨?_, Or.inr ?_⟩
          · simp [nullMember, hx0, hx1, h0]
          · rw [hbody]
            simp

/-- The filtering loop of `load_init_dict` on safe entries: it never
raises, it only ever appends to the log, keys absent from the input keep
their binding, and (for a well-formed dict input) every entry with a
missing member ends up logged and absent from the result. -/
theorem buildInitDict_safe :
    ∀ (es R : List (String × Value)) (logs : List String),
      (∀ kv ∈ es, valueSafe kv.2 = true) →
      ∃ R' logs', buildInitDict es R logs = .ok (R', logs') ∧
        (∃ Δ, logs' = logs ++ Δ) ∧
        (∀ k, k ∉ dkeys es → dlookup R' k = dlookup R k) ∧
        (∀ k v, (dkeys es).Nodup → (k, v) ∈ es → nullMember v = true →
          dlookup R k = none → dlookup R' k = none ∧ k ∈ logs') := by
  intro es
  induction es with
  | nil =>
    intro R logs _
    refine ⟨R, logs, rfl, ⟨[], by simp⟩, fun k _ => rfl, ?_⟩
    intro k v _ hm
    cases hm
  | cons kv rest ih =>
    intro R logs hsafe
    rcases kv with ⟨k', v'⟩
    have hsafe' : ∀ kv ∈ rest, valueSafe kv.2 = true :=
      fun kv h => hsafe kv (List.mem_cons_of_mem _ h)
    have hsv : valueSafe v' = true := hsafe (k', v') (List.mem_cons_self _ _)
    have hkeys : dkeys ((k', v') :: rest) = k' :: dkeys rest := rfl
    rcases buildInitDict_cons_step k' v' rest R logs hsv with ⟨hnm, heq⟩ | ⟨hnm, heq | heq⟩
    · -- the entry has a missing member: skipped and logged
      rcases ih R (logs ++ [k']) hsafe' with ⟨R', logs', hok, ⟨Δ, hΔ⟩, hun, hsk⟩
      refine ⟨R', logs', by rw [heq]; exact hok, ⟨[k'] ++ Δ, by rw [hΔ]; simp⟩, ?_, ?_⟩
      · intro k hk
        rw [hkeys] at hk
        exact hun k (fun hx => hk (List.mem_cons_of_mem _ hx))
      · intro k v hnd hm hnv hlk
        rw [hkeys] at hnd
        rcases List.mem_cons.mp hm with hh | hh
        · cases hh
          have hk' : k' ∉ dkeys rest := (List.nodup_cons.mp hnd).1
          refine ⟨(hun k' hk').trans hlk, ?_⟩
          rw [hΔ]
          simp
        · have hkrest : k ∈ dkeys rest := List.mem_map.mpr ⟨(k, v), hh, rfl⟩
          rcases hsk k v (List.nodup_cons.mp hnd).2 hh hnv hlk with ⟨h1, h2⟩
          exact ⟨h1, h2⟩
    · -- non-list entry: dropped silently
      rcases ih R logs hsafe' with ⟨R', logs', hok, hΔ, hun, hsk⟩
      refine ⟨R', logs', by rw [heq]; exact hok, hΔ, ?_, ?_⟩
      · intro k hk
        rw [hkeys] at hk
        exact hun k (fun hx => hk (List.mem_cons_of_mem _ hx))
      · intro k v hnd hm hnv hlk
        rw [hkeys] at hnd
        rcases List.mem_cons.mp hm with hh | hh
        · cases hh
          rw [hnv] at hnm
          cases hnm
        · exact hsk k v (List.nodup_cons.mp hnd).2 hh hnv hlk
    · -- complete reference pair: kept
      rcases ih (dinsert R k' v') logs hsafe' with ⟨R', logs', hok, hΔ, hun, hsk⟩
      refine ⟨R', logs', by rw [heq]; exact hok, hΔ, ?_, ?_⟩
      · intro k hk
        rw [hkeys] at hk
        have hkk' : ¬ k' = k := fun hx => hk (hx ▸ List.mem_cons_self _ _)
        rw [hun k (fun hx => hk (List.mem_cons_of_mem _ hx))]
        exact dlookup_dinsert_ne hkk'
      · intro k v hnd hm hnv hlk
        rw [hkeys] at hnd
        rcases List.mem_cons.mp hm with hh | hh
        · cases hh
          rw [hnv] at hnm
          cases hnm
        · have hkrest : k ∈ dkeys rest := List.mem_map.mpr ⟨(k, v), hh, rfl⟩
          have hkk' : ¬ k' = k := by
            intro hx
            exact (List.nodup_cons.mp hnd).1 (hx ▸ hkrest)
          have hlk' : dlookup (dinsert R k' v') k = none :=
            (dlookup_dinsert_ne hkk').trans hlk
          exact hsk k v (List.nodup_cons.mp hnd).2 hh hnv hlk'

/-! ## Concrete fixtures for witnesses and counterexamples -/

/-- Collaborator behaviour where every external call succeeds and every
footprint file holds exactly the conversion-pass record. -/
def envOkConv : Env :=
  ⟨fun _ => none, fun _ => none, fun _ => [⟨"OnnxConversion", "olivecache/m.onnx"⟩],
    fun _ => true, fun _ => none, none, []⟩

/-- Collaborator behaviour where every external call succeeds and every
footprint file holds exactly the optimization-pass record. -/
def envOkOpt : Env :=
  { envOkConv with footprints := fun _ => [⟨"OrtTransformersOptimization", "olivecache/m.onnx"⟩] }

/-- Collaborator behaviour where the engine runs but emits no footprint
record of the wanted pass: the stage's `assert` fires. -/
def envNoFootprint : Env := { envOkConv with footprints := fun _ => [] }

/-- Options: caches retained, optimization disabled. -/
def optsFix : Opts := ⟨"cachedir", "onnxtemp", true, true, false⟩

/-- Options: caches retained, optimization enabled. -/
def optsOlive : Opts := ⟨"cachedir", "onnxtemp", true, true, true⟩

/-- Options: converted cache NOT retained, optimization disabled. -/
def optsNoCacheConv : Opts := ⟨"cachedir", "onnxtemp", false, true, false⟩

/-- Options: converted cache NOT retained, optimization enabled. -/
def optsC10 : Opts := ⟨"cachedir", "onnxtemp", false, true, true⟩

/-- A base (non-XL) pipeline over the source directory `indir` for
checkpoint `model.ckpt`, with a scheduler entry and a sub-component entry
in its pre-conversion manifest. -/
def pipeFix : RawPipeline :=
  ⟨false, "indir", "model.ckpt", submodels_sd,
    [("scheduler", .ref [some "diffusers", some "DDIM"]),
      ("unet", .ref [some "diffusers", some "UNet2DConditionModel"])]⟩

/-- Cold start: only the source directory exists. -/
def stFix : St := ⟨["indir"], []⟩

/-- Warm start: the conversion cache entry for `model.ckpt` already
exists. -/
def stHit : St := ⟨["indir", "cachedir/model.ckpt"], []⟩

theorem oliveAdvisories_dirs (w hgt : Nat) (st : St) :
    (oliveAdvisories w hgt st).dirs = st.dirs := by
  unfold oliveAdvisories
  split <;> rfl

theorem pjoin_head {root x : String} {c : Char} {rest : List Char}
    (hr : root.data = c :: rest) : (pjoin root x).data.head? = some c := by
  unfold pjoin
  have hne : ¬ root = "" := by
    intro h
    rw [h] at hr
    cases hr
  rw [if_neg hne, String.data_append, String.data_append, hr]
  rfl

theorem ne_pjoin_of_head (s root x : String) (c c' : Char) (rest : List Char)
    (hs : s.data.head? = some c) (hr : root.data = c' :: rest) (hcc : ¬ c = c') :
    ¬ s = pjoin root x := by
  intro he
  rw [he, pjoin_head hr] at hs
  exact hcc (Option.some.inj hs).symm

theorem eq_fst_pair_of_snd {α : Type} {p : St × α} {y : α} (h : p.2 = y) : p = (p.1, y) := by
  rcases p with ⟨a, b⟩
  cases h
  rfl

theorem string_append_cancel_left {a b c : String} (h : a ++ b = a ++ c) : b = c := by
  apply String.ext
  have hd := congrArg String.data h
  rw [String.data_append, String.data_append] at hd
  exact List.append_cancel_left hd

/-! ## Claim theorems -/

/-- C1 (amended): conversion is idempotent via a directory-existence
cache.  If the target cache directory (keyed by source filename) already
exists, `convert` returns it immediately with no effect at all — in
particular without invoking the engine and without inspecting the
directory's contents.  Hence a second invocation against an unchanged
source returns the same output path and leaves the state untouched, and
across the two invocations the external conversion engine is invoked only
during the first one, exactly once per required sub-component (not exactly
once in total, which the counterexample refutes). -/
theorem c1_theorem (env : Env) (opts : Opts) (P : RawPipeline) (inDir : String) (st : St) :
    (convOutDir opts P ∈ st.dirs →
      convert env opts P inDir st = (st, some (convOutDir opts P))) ∧
    (∀ st₁ d, convert env opts P inDir st = (st₁, some d) →
      convert env opts P inDir st₁ = (st₁, some d)) ∧
    (∀ st₁ d, convOutDir opts P ∉ st.dirs →
      convert env opts P inDir st = (st₁, some d) →
      engineCount st₁.events = engineCount st.events + P.submodels.length) := by
  refine ⟨?_, ?_, ?_⟩
  · intro hmem
    unfold convert
    rw [if_pos hmem]
  · intro st₁ d h
    rcases convert_some h with ⟨rfl, hmem⟩
    unfold convert
    rw [if_pos hmem]
  · intro st₁ d hmiss h
    unfold convert at h
    rw [if_neg hmiss] at h
    rcases hb : stageBody env P opts.cacheConverted "OnnxConversion" "Failed to convert model"
        inDir (convOutDir opts P) st with ⟨r, stb⟩
    rw [hb] at h
    cases r with
    | ok d' =>
      cases h
      exact (stageBody_ok hb).2.2.2.1
    | error e => simp at h

/-- C1 counterexample to the claim as stated: against a cold cache
followed by a second invocation, the engine is invoked 4 times (once per
sub-component of the base architecture), not exactly once, even though the
second invocation returns the same path and performs no engine
invocation. -/
theorem c1_counterexample :
    (convert envOkConv optsFix pipeFix "indir" stFix).2 = some "cachedir/model.ckpt" ∧
    convert envOkConv optsFix pipeFix "indir" (convert envOkConv optsFix pipeFix "indir" stFix).1 =
      ((convert envOkConv optsFix pipeFix "indir" stFix).1, some "cachedir/model.ckpt") ∧
    engineCount (convert envOkConv optsFix pipeFix "indir"
      (convert envOkConv optsFix pipeFix "indir" stFix).1).1.events = 4 ∧
    ¬ engineCount (convert envOkConv optsFix pipeFix "indir"
      (convert envOkConv optsFix pipeFix "indir" stFix).1).1.events = 1 :=
  ⟨by decide, by decide, by decide, by decide⟩

/-- C1 witness: the amended theorem applied to the concrete fixture. -/
theorem c1_witness :
    convert envOkConv optsFix pipeFix "indir" stHit = (stHit, some (convOutDir optsFix pipeFix)) ∧
    convert envOkConv optsFix pipeFix "indir" (convert envOkConv optsFix pipeFix "indir" stFix).1 =
      ((convert envOkConv optsFix pipeFix "indir" stFix).1, some "cachedir/model.ckpt") ∧
    engineCount (convert envOkConv optsFix pipeFix "indir" stFix).1.events =
      engineCount stFix.events + pipeFix.submodels.length := by
  refine ⟨?_, ?_, ?_⟩
  · exact (c1_theorem envOkConv optsFix pipeFix "indir" stHit).1 (by decide)
  · exact (c1_theorem envOkConv optsFix pipeFix "indir" stFix).2.1
      (convert envOkConv optsFix pipeFix "indir" stFix).1 "cachedir/model.ckpt" rfl
  · exact (c1_theorem envOkConv optsFix pipeFix "indir" stFix).2.2
      (convert envOkConv optsFix pipeFix "indir" stFix).1 "cachedir/model.ckpt"
      (by decide) rfl

/-- C2: conversion-stage failure is atomic.  For every run of `convert`
past the cache check (the output directory did not pre-exist), if any
exception is raised anywhere in the try-block body — including the
`assert` that fires when no footprint record of the "OnnxConversion" pass
exists for a sub-component — then `convert` logs the failure context and
the original error text, recursively deletes the scratch directory and the
partial output directory, and returns `none`. -/
theorem c2_theorem (env : Env) (opts : Opts) (P : RawPipeline) (inDir : String)
    (st : St) (e : Err) (stE : St)
    (hmiss : convOutDir opts P ∉ st.dirs)
    (hbody : stageBody env P opts.cacheConverted "OnnxConversion" "Failed to convert model"
      inDir (convOutDir opts P) st = (.error e, stE)) :
    ∃ st', convert env opts P inDir st = (st', none) ∧
      opts.tempDir ∉ st'.dirs ∧ convOutDir opts P ∉ st'.dirs ∧
      ∃ es, st'.events = es ++
        [.logError ("Failed to convert model '" ++ P.originalFilename ++ "'."),
          .logError (errText e)] := by
  refine ⟨failCleanup opts P "Failed to convert" e (convOutDir opts P) stE, ?_, ?_, ?_, ?_⟩
  · unfold convert
    rw [if_neg hmiss, hbody]
  · exact not_mem_removeTree (not_mem_removeTree_self _ _)
  · exact not_mem_removeTree_self _ _
  · exact ⟨stE.events, by simp [failCleanup, pushE, removeTreeSt]⟩

/-- C2 witness: the assert-triggered abort (empty footprint record set)
cleans up and returns `none`. -/
theorem c2_witness :
    ∃ st', convert envNoFootprint optsFix pipeFix "indir" stFix = (st', none) ∧
      optsFix.tempDir ∉ st'.dirs ∧ convOutDir optsFix pipeFix ∉ st'.dirs ∧
      ∃ es, st'.events = es ++
        [.logError ("Failed to convert model '" ++ pipeFix.originalFilename ++ "'."),
          .logError (errText (.assertionError "Failed to convert model"))] :=
  c2_theorem envNoFootprint optsFix pipeFix "indir" stFix
    (.assertionError "Failed to convert model")
    (stageBody envNoFootprint pipeFix optsFix.cacheConverted "OnnxConversion"
      "Failed to convert model" "indir" (convOutDir optsFix pipeFix) stFix).2
    (by decide) rfl

/-- C3: fallback A.  Whenever `convert` returns `none`, `preprocess`
returns a pipeline assembled from the original, unconverted sub-components
at the original source path using the original generic constructor, and
the conversion output directory does not remain on disk. -/
theorem c3_theorem (envC envO : Env) (opts : Opts) (P : RawPipeline)
    (b hgt w : Nat) (st st₁ : St)
    (h : convert envC opts P (preprocessInDir opts P st) st = (st₁, none)) :
    ∃ stF, preprocess envC envO opts P b hgt w st = (stF, .ok ⟨origCtor P.isSdxl, P.path⟩) ∧
      convOutDir opts P ∉ stF.dirs := by
  refine ⟨_, preprocess_fallbackA h, ?_⟩
  exact (convert_none h).2.1

/-- C3 witness: a forced conversion failure (missing footprint) yields the
original-constructor pipeline at the original path and no cache entry. -/
theorem c3_witness :
    ∃ stF, preprocess envNoFootprint envOkConv optsFix pipeFix 1 512 512 stFix =
      (stF, .ok ⟨origCtor pipeFix.isSdxl, pipeFix.path⟩) ∧
      convOutDir optsFix pipeFix ∉ stF.dirs :=
  c3_theorem envNoFootprint envOkConv optsFix pipeFix 1 512 512 stFix
    (convert envNoFootprint optsFix pipeFix (preprocessInDir optsFix pipeFix stFix) stFix).1
    rfl

/-- C4: fallback B.  Whenever conversion succeeds, optimization is
enabled, and `optimize` returns `none`, `preprocess` returns a pipeline
assembled from the converted (unoptimized) directory using the
graph-backed constructor, and the optimization output directory does not
exist afterwards.  (The two inequality hypotheses separate the
optimization cache key from the scratch directory tree; they hold in any
real configuration and are discharged at the witness.) -/
theorem c4_theorem (envC envO : Env) (opts : Opts) (P : RawPipeline)
    (b hgt w : Nat) (st st₁ st₄ : St) (cd : String)
    (hol : opts.enableOlive = true)
    (hc : convert envC opts P (preprocessInDir opts P st) st = (st₁, some cd))
    (ho : optimize envO opts P (preprocessConfig P b hgt w) cd (oliveAdvisories w hgt st₁) =
      (st₄, none))
    (hne : optOutDir opts.cachedModelsPath P.originalFilename w hgt ≠ opts.tempDir)
    (hsub : ∀ x, optOutDir opts.cachedModelsPath P.originalFilename w hgt ≠
      pjoin opts.tempDir x) :
    ∃ stF, preprocess envC envO opts P b hgt w st = (stF, .ok ⟨onnxCtor P.isSdxl, cd⟩) ∧
      optOutDir opts.cachedModelsPath P.originalFilename w hgt ∉ stF.dirs := by
  refine ⟨_, preprocess_fallbackB hol hc ho, ?_⟩
  exact (optimize_none ho).2.1 hne hsub

/-- C4 witness: a successful conversion followed by a forced optimization
failure (missing footprint) yields the graph-backed pipeline over the
converted directory, and the `-512w-512h` cache directory is absent. -/
theorem c4_witness :
    ∃ stF, preprocess envOkConv envNoFootprint optsOlive pipeFix 1 512 512 stFix =
      (stF, .ok ⟨onnxCtor pipeFix.isSdxl, "cachedir/model.ckpt"⟩) ∧
      optOutDir optsOlive.cachedModelsPath pipeFix.originalFilename 512 512 ∉ stF.dirs := by
  refine c4_theorem envOkConv envNoFootprint optsOlive pipeFix 1 512 512 stFix
    (convert envOkConv optsOlive pipeFix (preprocessInDir optsOlive pipeFix stFix) stFix).1
    (optimize envNoFootprint optsOlive pipeFix (preprocessConfig pipeFix 1 512 512)
      "cachedir/model.ckpt" (oliveAdvisories 512 512
        (convert envOkConv optsOlive pipeFix (preprocessInDir optsOlive pipeFix stFix) stFix).1)).1
    "cachedir/model.ckpt" rfl (eq_fst_pair_of_snd (by decide))
    (eq_fst_pair_of_snd (by decide)) (by decide) ?_
  intro x
  exact ne_pjoin_of_head _ _ x 'c' 'o' ['n', 'n', 'x', 't', 'e', 'm', 'p']
    (by decide) (by decide) (by decide)

/-- C5: optimization cache-key correctness.  The optimization output
directory is the cache root joined with `<fname>-<w>w-<h>h`, and for a
fixed cache root and source filename two optimization runs share the same
output path exactly when both width and height match (so the paths differ
whenever width or height differ). -/
theorem c5_theorem (root f : String) (w h w' h' : Nat) :
    optOutDir root f w h = optOutDir root f w' h' ↔ (w = w' ∧ h = h') := by
  constructor
  · intro he
    unfold optOutDir pjoin at he
    by_cases hr : root = ""
    · rw [if_pos hr, if_pos hr] at he
      exact optKey_inj he
    · rw [if_neg hr, if_neg hr] at he
      exact optKey_inj (string_append_cancel_left he)
  · rintro ⟨rfl, rfl⟩
    rfl

/-- C6 (code bug): with "retain converted cache" disabled, `convert` does
NOT redirect its output to the scratch directory as the specification
describes (only `optimize` has that redirect); the output directory stays
at the persistent cache path, which nothing creates, so the artifact copy
step raises `FileNotFoundError` after the engine has already run for every
sub-component, and conversion returns `none`.  Evaluated here at a
concrete run in which every external call succeeds: the result is `none`,
the engine ran 4 times, and no directory was ever created under the
scratch directory. -/
theorem c6_theorem :
    optsNoCacheConv.cacheConverted = false ∧
    (convert envOkConv optsNoCacheConv pipeFix "indir" stFix).2 = none ∧
    engineCount (convert envOkConv optsNoCacheConv pipeFix "indir" stFix).1.events = 4 ∧
    (∀ d ∈ (convert envOkConv optsNoCacheConv pipeFix "indir" stFix).1.dirs,
      inTree optsNoCacheConv.tempDir d = false) :=
  ⟨rfl, by decide, by decide, by decide⟩

/-- C7 (amended): manifest merge law.  On every actual (cache-missing)
successful conversion, the manifest persisted to the output directory is
the last recorded event — written after all graph-file copies — and its
content is the transient pipeline's serialized manifest merged with the
pruned `init_dict`; every key of the pre-conversion manifest that is NOT a
converted sub-component name and is absent from the serialized manifest
appears in it unmodified.  (Converted sub-component keys are deleted from
the working `init_dict` before the merge, so for them the law fails — see
the counterexample.) -/
theorem c7_theorem (env : Env) (opts : Opts) (P : RawPipeline) (inDir : String)
    (st st' : St) (d : String)
    (hmiss : convOutDir opts P ∉ st.dirs)
    (h : convert env opts P inDir st = (st', some d)) :
    ∃ es, st'.events = es ++
        [.writeManifest d (mergeModelIndex env.serialized (pruneInit P.initDict P.submodels))] ∧
      ∀ k v, dlookup P.initDict k = some v → k ∉ P.submodels →
        dlookup env.serialized k = none →
        dlookup (mergeModelIndex env.serialized (pruneInit P.initDict P.submodels)) k
          = some v := by
  unfold convert at h
  rw [if_neg hmiss] at h
  rcases hb : stageBody env P opts.cacheConverted "OnnxConversion" "Failed to convert model"
      inDir (convOutDir opts P) st with ⟨r, stb⟩
  rw [hb] at h
  cases r with
  | ok d' =>
    cases h
    rcases stageBody_ok hb with ⟨rfl, -, ⟨es, hes⟩, -⟩
    refine ⟨es, hes, ?_⟩
    intro k v hik hks hse
    apply dlookup_mergeModelIndex_of_mem _ _ hse
    rw [dlookup_pruneInit_ne P.submodels P.initDict hks]
    exact hik
  | error e => simp at h

/-- C7 counterexample to the claim as stated: `unet` is a key of the
pre-conversion manifest and is absent from the transient pipeline's
serialized manifest, yet the persisted manifest file does not contain it —
the merge loop runs over the working `init_dict` from which every
converted sub-component key was deleted. -/
theorem c7_counterexample :
    (dlookup pipeFix.initDict "unet").isSome = true ∧
    dlookup envOkConv.serialized "unet" = none ∧
    (convert envOkConv optsFix pipeFix "indir" stFix).2 = some "cachedir/model.ckpt" ∧
    (convert envOkConv optsFix pipeFix "indir" stFix).1.events.getLast? =
      some (.writeManifest "cachedir/model.ckpt"
        [("scheduler", .ref [some "diffusers", some "DDIM"])]) ∧
    dlookup [("scheduler", .ref [some "diffusers", some "DDIM"])] "unet" = none :=
  ⟨by decide, by decide, by decide, by decide, by decide⟩

/-- C7 witness: the amended merge law applied to the concrete fixture at
the non-sub-component key `scheduler`. -/
theorem c7_witness :
    ∃ es, (convert envOkConv optsFix pipeFix "indir" stFix).1.events = es ++
        [.writeManifest "cachedir/model.ckpt"
          (mergeModelIndex envOkConv.serialized (pruneInit pipeFix.initDict pipeFix.submodels))] ∧
      dlookup (mergeModelIndex envOkConv.serialized
          (pruneInit pipeFix.initDict pipeFix.submodels)) "scheduler"
        = some (.ref [some "diffusers", some "DDIM"]) := by
  rcases c7_theorem envOkConv optsFix pipeFix "indir" stFix
      (convert envOkConv optsFix pipeFix "indir" stFix).1 "cachedir/model.ckpt"
      (by decide) rfl with ⟨es, hes, hlaw⟩
  exact ⟨es, hes, hlaw "scheduler" (.ref [some "diffusers", some "DDIM"])
    (by decide) (by decide) (by decide)⟩

/-- C8: cleanup invariant.  After every terminal orchestrator state of
`preprocess` — success, fallback A, or fallback B — the shared scratch
directory does not exist; on the success path it is always deleted with
`ignore_errors=True` (so its absence is never an error). -/
theorem c8_theorem (envC envO : Env) (opts : Opts) (P : RawPipeline)
    (b hgt w : Nat) (st stF : St) (pipe : Pipe)
    (h : preprocess envC envO opts P b hgt w st = (stF, .ok pipe)) :
    opts.tempDir ∉ stF.dirs := by
  rcases hc : convert envC opts P (preprocessInDir opts P st) st with ⟨st₁, r⟩
  cases r with
  | none =>
    rw [preprocess_fallbackA hc] at h
    cases h
    exact (convert_none hc).1
  | some cd =>
    cases hol : opts.enableOlive with
    | false =>
      rw [preprocess_oliveOff hol hc] at h
      exact (finishPre_ok h).1
    | true =>
      rcases ho : optimize envO opts P (preprocessConfig P b hgt w) cd
          (oliveAdvisories w hgt st₁) with ⟨st₄, ro⟩
      cases ro with
      | none =>
        rw [preprocess_fallbackB hol hc ho] at h
        cases h
        exact (optimize_none ho).1
      | some od =>
        rw [preprocess_oliveOn_success hol hc ho] at h
        exact (finishPre_ok h).1

/-- C8 witness: a full successful run leaves no scratch directory. -/
theorem c8_witness :
    optsFix.tempDir ∉ (preprocess envOkConv envOkConv optsFix pipeFix 1 512 512 stFix).1.dirs :=
  c8_theorem envOkConv envOkConv optsFix pipeFix 1 512 512 stFix
    (preprocess envOkConv envOkConv optsFix pipeFix 1 512 512 stFix).1
    ⟨onnxCtor pipeFix.isSdxl, "cachedir/model.ckpt"⟩ (eq_fst_pair_of_snd (by decide))

/-- C9 (amended): the manifest loader never raises on well-formed entries:
for every manifest whose list-valued entries each have at least two
members or a `None` first member, `load_init_dict` succeeds, and each
entry whose reference pair has a missing (`None`) member among its first
two is logged and skipped rather than raising, so the loaded manifest can
contain fewer entries than the full expected set.  (An entry whose list
has a single non-`None` member makes the loader raise `IndexError` — see
the counterexample.) -/
theorem c9_theorem (extracted : List (List (String × Value)))
    (hsafe : ∀ kv ∈ extracted.foldl dictUpdate [], valueSafe kv.2 = true) :
    ∃ R logs, load_init_dict extracted = .ok (R, logs) ∧
      ∀ k v, (k, v) ∈ extracted.foldl dictUpdate [] → nullMember v = true →
        dlookup R k = none ∧ k ∈ logs := by
  rcases buildInitDict_safe (extracted.foldl dictUpdate []) [] [] hsafe with
    ⟨R, logs, hok, -, -, hsk⟩
  refine ⟨R, logs, hok, ?_⟩
  intro k v hm hnv
  exact hsk k v (nodupKeys_merged extracted) hm hnv rfl

/-- C9 counterexample to the claim as stated: an entry whose reference
pair is missing its second member entirely (`["lib"]`) makes the loader
raise `IndexError` instead of logging and skipping. -/
theorem c9_counterexample :
    load_init_dict [[("x", .ref [some "lib"])]] = .error .indexError := by decide

/-- C9 witness: the amended theorem on a manifest holding a null-membered
pair, a complete pair, and a literal entry. -/
theorem c9_witness :
    ∃ R logs,
      load_init_dict [[("a", .ref [none, some "x"]), ("b", .ref [some "lib", some "cls"]),
        ("c", .lit "cfg")]] = .ok (R, logs) ∧
      ∀ k v, (k, v) ∈ ([[("a", Value.ref [none, some "x"]),
          ("b", Value.ref [some "lib", some "cls"]),
          ("c", Value.lit "cfg")]].foldl dictUpdate []) → nullMember v = true →
        dlookup R k = none ∧ k ∈ logs :=
  c9_theorem [[("a", .ref [none, some "x"]), ("b", .ref [some "lib", some "cls"]),
    ("c", .lit "cfg")]] (by decide)

/-- C10 (implicit frame effect): on fallback B (optimization enabled,
conversion succeeded, optimization failed), `preprocess` returns before
the S3 cleanup, so the converted cache directory is left on disk even when
"retain converted cache" is disabled; and it is only the success path that
deletes the converted directory when that option is disabled. -/
theorem c10_theorem :
    (∀ (envC envO : Env) (opts : Opts) (P : RawPipeline) (b hgt w : Nat) (st st₁ st₄ : St)
      (cd : String),
      opts.cacheConverted = false → opts.enableOlive = true →
      convert envC opts P (preprocessInDir opts P st) st = (st₁, some cd) →
      optimize envO opts P (preprocessConfig P b hgt w) cd (oliveAdvisories w hgt st₁) =
        (st₄, none) →
      inTree "cache" cd = false → inTree "footprints" cd = false →
      inTree opts.tempDir cd = false →
      inTree (optOutDir opts.cachedModelsPath P.originalFilename w hgt) cd = false →
      ∃ stF, preprocess envC envO opts P b hgt w st = (stF, .ok ⟨onnxCtor P.isSdxl, cd⟩) ∧
        cd ∈ stF.dirs) ∧
    (∀ (envC envO : Env) (opts : Opts) (P : RawPipeline) (b hgt w : Nat) (st st₁ : St)
      (cd : String),
      opts.cacheConverted = false → opts.enableOlive = false →
      convert envC opts P (preprocessInDir opts P st) st = (st₁, some cd) →
      ∃ stF, preprocess envC envO opts P b hgt w st = (stF, .ok ⟨onnxCtor P.isSdxl, cd⟩) ∧
        cd ∉ stF.dirs) := by
  constructor
  · intro envC envO opts P b hgt w st st₁ st₄ cd hcc hol hc ho t1 t2 t3 t4
    refine ⟨_, preprocess_fallbackB hol hc ho, ?_⟩
    show cd ∈ st₄.dirs
    rcases convert_some hc with ⟨-, hmem⟩
    have hcd : cd ∈ st₁.dirs := by
      rcases convert_some hc with ⟨rfl, -⟩
      exact hmem
    have hmem' : cd ∈ (oliveAdvisories w hgt st₁).dirs := by
      rw [oliveAdvisories_dirs]
      exact hcd
    exact optimize_preserves ho hmem' t1 t2 t3 t4
  · intro envC envO opts P b hgt w st st₁ cd hcc hol hc
    rcases convert_some hc with ⟨-, hmem⟩
    have hcd : cd ∈ st₁.dirs := by
      rcases convert_some hc with ⟨rfl, -⟩
      exact hmem
    refine ⟨removeTreeSt opts.tempDir (removeTreeSt cd st₁), ?_, ?_⟩
    · rw [preprocess_oliveOff hol hc]
      unfold finishPre
      rw [hcc]
      simp only [Bool.false_eq_true, if_false]
      rw [if_pos hcd]
    · exact not_mem_removeTree (not_mem_removeTree_self _ _)

/-- C10 witness: both branches of the theorem at a concrete warm-cache
fixture with the converted-cache retention disabled. -/
theorem c10_witness :
    (∃ stF, preprocess envOkConv envNoFootprint optsC10 pipeFix 1 512 512 stHit =
      (stF, .ok ⟨onnxCtor pipeFix.isSdxl, "cachedir/model.ckpt"⟩) ∧
      "cachedir/model.ckpt" ∈ stF.dirs) ∧
    (∃ stF, preprocess envOkConv envOkConv optsNoCacheConv pipeFix 1 512 512 stHit =
      (stF, .ok ⟨onnxCtor pipeFix.isSdxl, "cachedir/model.ckpt"⟩) ∧
      "cachedir/model.ckpt" ∉ stF.dirs) := by
  constructor
  · exact c10_theorem.1 envOkConv envNoFootprint optsC10 pipeFix 1 512 512 stHit
      (convert envOkConv optsC10 pipeFix (preprocessInDir optsC10 pipeFix stHit) stHit).1
      (optimize envNoFootprint optsC10 pipeFix (preprocessConfig pipeFix 1 512 512)
        "cachedir/model.ckpt" (oliveAdvisories 512 512
          (convert envOkConv optsC10 pipeFix
            (preprocessInDir optsC10 pipeFix stHit) stHit).1)).1
      "cachedir/model.ckpt" rfl rfl (eq_fst_pair_of_snd (by decide))
      (eq_fst_pair_of_snd (by decide)) (by decide) (by decide) (by decide) (by decide)
  · exact c10_theorem.2 envOkConv envOkConv optsNoCacheConv pipeFix 1 512 512 stHit
      (convert envOkConv optsNoCacheConv pipeFix
        (preprocessInDir optsNoCacheConv pipeFix stHit) stHit).1
      "cachedir/model.ckpt" rfl rfl (eq_fst_pair_of_snd (by decide))

end Onnx
